/-
Verification of the corso incremental-backup core against its specification.

The development shallowly embeds four subsystems:
  * the tag-indexed Model Store (generic CRUD over an immutable object store
    with atomic write sessions),
  * the manifest selector of internal/kopia/snapshot_manager.go,
  * the BackupBases reconciliation structure,
  * the restore-operation orchestrator (persistResults / Run).

snapshot_manager.go is present in the repository sources and is embedded
directly from the Go code.  The model store, backup bases, and operation
implementations are not part of the provided sources (only their tests are),
so those definitions are modelled from the specification, cross-checked
against the behavior pinned down by the repository's unit tests.
-/
import Mathlib

namespace Corso

/-! ## Model Store

Modelled from the spec: the implementation file (internal/kopia/model_store.go)
is not among the provided sources; only model_store_test.go is.  The embedding
below follows spec section 4.1: Put assigns fresh StableID/ModelStoreID,
Update writes a new physical object and removes the old one inside one atomic
write session, Get/GetWithModelStoreID distinguish not-found from
type-mismatch, and Delete of an absent model is a no-op.

Machine identifiers are modelled as natural numbers; `0` plays the role of the
empty/unset identifier.  A state carries a free-identifier counter `nextID`;
all identifiers stored are strictly below it. -/

inductive ModelStoreErr where
  | notFound
  | typeMismatch
  | validation
  | injected
deriving DecidableEq, Repr

inductive ModelKind where
  | unknownModel
  | backupOpModel
  | restoreOpModel
  | restorePointModel
deriving DecidableEq, Repr

/-- A physical object in the backing store: the payload plus the store-owned
stable-id and type-label tags. -/
structure StoredObj where
  stableID : Nat
  kind : ModelKind
  data : String
deriving DecidableEq, Repr

/-- Modelled from the spec: backing-store state.  `store` maps a ModelStoreID
to the physical object at that location; `nextID` generates fresh ids. -/
structure MSState where
  store : List (Nat × StoredObj)
  nextID : Nat
deriving DecidableEq, Repr

/-- The in-memory model handed to/returned from the store (BaseModel). -/
structure ModelData where
  stableID : Nat
  modelStoreID : Nat
  data : String
deriving DecidableEq, Repr

def lookupObj (s : MSState) (id : Nat) : Option StoredObj :=
  (s.store.find? (fun p => p.fst == id)).map Prod.snd

def removeID (store : List (Nat × StoredObj)) (id : Nat) : List (Nat × StoredObj) :=
  store.filter (fun p => !(p.fst == id))

/-- Modelled from the spec: `Put` assigns a fresh StableID and ModelStoreID,
writes the tagged object and returns the model updated with both ids. -/
def Put (t : ModelKind) (m : ModelData) (s : MSState) :
    Except ModelStoreErr (ModelData × MSState) :=
  if t = ModelKind.unknownModel then .error .validation
  else
    let sid := s.nextID
    let mid := s.nextID + 1
    Except.ok
      ({ m with stableID := sid, modelStoreID := mid },
       { store := (mid, { stableID := sid, kind := t, data := m.data }) :: s.store,
         nextID := s.nextID + 2 })

/-- Modelled from the spec: the body of `Update` run inside one atomic write
session.  It validates the ids and the recorded type, writes the *new*
physical object under a fresh ModelStoreID, deletes the prior physical
object, and then either commits or (when `fault` is set, modelling a failure
after the new object is written but before the session commits) fails. -/
def updateSession (fault : Bool) (t : ModelKind) (m : ModelData) (s : MSState) :
    Except ModelStoreErr (ModelData × MSState) :=
  if t = ModelKind.unknownModel then .error .validation
  else if m.stableID = 0 ∨ m.modelStoreID = 0 then .error .validation
  else
    match lookupObj s m.modelStoreID with
    | none => .error .notFound
    | some o =>
      if o.kind ≠ t ∨ o.stableID ≠ m.stableID then .error .typeMismatch
      else
        let newID := s.nextID
        let s1 : MSState :=
          { store := (newID, { stableID := m.stableID, kind := t, data := m.data }) :: s.store,
            nextID := s.nextID + 1 }
        let s2 : MSState := { s1 with store := removeID s1.store m.modelStoreID }
        if fault then .error .injected
        else .ok ({ m with modelStoreID := newID }, s2)

/-- Modelled from the spec: `Update` runs the session body atomically.  On
error the session rolls back completely, so the visible state is unchanged. -/
def Update (fault : Bool) (t : ModelKind) (m : ModelData) (s : MSState) :
    Except ModelStoreErr ModelData × MSState :=
  match updateSession fault t m s with
  | .ok (m', s') => (.ok m', s')
  | .error e => (.error e, s)

/-- Modelled from the spec: read the model at a physical location.  Fails
not-found when no object lives there, type-mismatch when the recorded type
differs from the declared one. -/
def GetWithModelStoreID (t : ModelKind) (id : Nat) (s : MSState) :
    Except ModelStoreErr ModelData :=
  if id = 0 then .error .validation
  else
    match lookupObj s id with
    | none => .error .notFound
    | some o =>
      if o.kind = t then .ok { stableID := o.stableID, modelStoreID := id, data := o.data }
      else .error .typeMismatch

/-- Modelled from the spec: read the model carrying the given StableID tag. -/
def Get (t : ModelKind) (sid : Nat) (s : MSState) : Except ModelStoreErr ModelData :=
  if sid = 0 then .error .validation
  else
    match s.store.find? (fun p => p.snd.stableID == sid) with
    | none => .error .notFound
    | some (mid, o) =>
      if o.kind = t then .ok { stableID := sid, modelStoreID := mid, data := o.data }
      else .error .typeMismatch

/-- Modelled from the spec: `Delete` by StableID.  Removal of an absent model
is a no-op, not a failure; a present model stored under a different declared
type is a type-mismatch error. -/
def Delete (t : ModelKind) (sid : Nat) (s : MSState) : Except ModelStoreErr MSState :=
  if sid = 0 then .error .validation
  else
    match s.store.find? (fun p => p.snd.stableID == sid) with
    | none => .ok s
    | some (mid, o) =>
      if o.kind = t then .ok { s with store := removeID s.store mid }
      else .error .typeMismatch

/-- Modelled from the spec: `DeleteWithModelStoreID`.  Removal of an absent
physical id is a no-op. -/
def DeleteWithModelStoreID (id : Nat) (s : MSState) : Except ModelStoreErr MSState :=
  if id = 0 then .error .validation
  else .ok { s with store := removeID s.store id }

/-- Well-formedness of a store state: the id generator is ahead of every
identifier in use (both physical ids and stable ids). -/
def msInv (s : MSState) : Prop :=
  0 < s.nextID ∧ ∀ p ∈ s.store, p.fst < s.nextID ∧ p.snd.stableID < s.nextID

/-- The in-memory model `m` is faithfully stored: its physical location holds
an object with its StableID, declared type `t` and payload `d`. -/
def storedAs (t : ModelKind) (m : ModelData) (d : String) (s : MSState) : Prop :=
  m.stableID ≠ 0 ∧ m.modelStoreID ≠ 0 ∧
    lookupObj s m.modelStoreID = some { stableID := m.stableID, kind := t, data := d }

end Corso

namespace Corso

/-! ### Model store lemmas -/

lemma lookupObj_nextID_none (s : MSState) (hInv : msInv s) : lookupObj s s.nextID = none := by
  unfold lookupObj
  have h : s.store.find? (fun p => p.fst == s.nextID) = none := by
    rw [List.find?_eq_none]
    intro p hp
    have := (hInv.2 p hp).1
    simp only [beq_iff_eq]
    omega
  rw [h]
  rfl

lemma mem_store_of_storedAs {t : ModelKind} {m : ModelData} {d : String} {s : MSState}
    (h : storedAs t m d s) :
    (m.modelStoreID, ({ stableID := m.stableID, kind := t, data := d } : StoredObj)) ∈ s.store := by
  obtain ⟨-, -, hl⟩ := h
  unfold lookupObj at hl
  obtain ⟨p, hf, hsnd⟩ := Option.map_eq_some'.mp hl
  have hmem := List.mem_of_find?_eq_some hf
  have hpred := List.find?_some hf
  simp only [beq_iff_eq] at hpred
  obtain ⟨p1, p2⟩ := p
  simp only at hpred hsnd
  subst hpred
  subst hsnd
  exact hmem

lemma modelStoreID_lt_nextID {t : ModelKind} {m : ModelData} {d : String} {s : MSState}
    (hInv : msInv s) (h : storedAs t m d s) : m.modelStoreID < s.nextID :=
  (hInv.2 _ (mem_store_of_storedAs h)).1

lemma stableID_lt_nextID {t : ModelKind} {m : ModelData} {d : String} {s : MSState}
    (hInv : msInv s) (h : storedAs t m d s) : m.stableID < s.nextID :=
  (hInv.2 _ (mem_store_of_storedAs h)).2

/-- The post-state of a successful `Update`, written out explicitly. -/
def updatedState (t : ModelKind) (m : ModelData) (s : MSState) : MSState :=
  { store := removeID
      ((s.nextID, { stableID := m.stableID, kind := t, data := m.data }) :: s.store)
      m.modelStoreID,
    nextID := s.nextID + 1 }

lemma updateSession_ok {t : ModelKind} {m : ModelData} {d : String} {s : MSState}
    (hStored : storedAs t m d s) (hT : t ≠ ModelKind.unknownModel) :
    updateSession false t m s = .ok ({ m with modelStoreID := s.nextID }, updatedState t m s) := by
  obtain ⟨hsid, hmid, hl⟩ := hStored
  unfold updateSession
  rw [if_neg hT, if_neg (by push_neg; exact ⟨hsid, hmid⟩), hl]
  simp [updatedState]

lemma update_ok {t : ModelKind} {m : ModelData} {d : String} {s : MSState}
    (hStored : storedAs t m d s) (hT : t ≠ ModelKind.unknownModel) :
    Update false t m s = (.ok { m with modelStoreID := s.nextID }, updatedState t m s) := by
  unfold Update
  rw [updateSession_ok hStored hT]

lemma updateSession_fault {t : ModelKind} {m : ModelData} {d : String} {s : MSState}
    (hStored : storedAs t m d s) (hT : t ≠ ModelKind.unknownModel) :
    updateSession true t m s = .error .injected := by
  obtain ⟨hsid, hmid, hl⟩ := hStored
  unfold updateSession
  rw [if_neg hT, if_neg (by push_neg; exact ⟨hsid, hmid⟩), hl]
  simp

lemma update_fault {t : ModelKind} {m : ModelData} {d : String} {s : MSState}
    (hStored : storedAs t m d s) (hT : t ≠ ModelKind.unknownModel) :
    Update true t m s = (.error .injected, s) := by
  unfold Update
  rw [updateSession_fault hStored hT]

lemma getWithModelStoreID_stored {t : ModelKind} {m : ModelData} {d : String} {s : MSState}
    (hStored : storedAs t m d s) :
    GetWithModelStoreID t m.modelStoreID s =
      .ok { stableID := m.stableID, modelStoreID := m.modelStoreID, data := d } := by
  obtain ⟨hsid, hmid, hl⟩ := hStored
  unfold GetWithModelStoreID
  rw [if_neg hmid, hl]
  simp

lemma getWithModelStoreID_fresh (t : ModelKind) (s : MSState) (hInv : msInv s) :
    GetWithModelStoreID t s.nextID s = .error .notFound := by
  have h0 := hInv.1
  unfold GetWithModelStoreID
  rw [if_neg (by omega : ¬ s.nextID = 0), lookupObj_nextID_none s hInv]

lemma updatedState_store (t : ModelKind) (m : ModelData) (s : MSState) :
    (updatedState t m s).store =
      removeID ((s.nextID, { stableID := m.stableID, kind := t, data := m.data }) :: s.store)
        m.modelStoreID := rfl

lemma updatedState_nextID (t : ModelKind) (m : ModelData) (s : MSState) :
    (updatedState t m s).nextID = s.nextID + 1 := rfl

lemma msInv_updatedState {t : ModelKind} {m : ModelData} {d : String} {s : MSState}
    (hInv : msInv s) (hStored : storedAs t m d s) : msInv (updatedState t m s) := by
  have hsb := stableID_lt_nextID hInv hStored
  constructor
  · rw [updatedState_nextID]; omega
  · intro p hp
    rw [updatedState_store] at hp
    rw [updatedState_nextID]
    have hp' := List.mem_of_mem_filter hp
    rcases List.mem_cons.mp hp' with h | h
    · subst h
      constructor
      · show s.nextID < s.nextID + 1
        omega
      · show m.stableID < s.nextID + 1
        omega
    · have := hInv.2 p h
      omega

lemma storedAs_updatedState {t : ModelKind} {m : ModelData} {d : String} {s : MSState}
    (hInv : msInv s) (hStored : storedAs t m d s) :
    storedAs t { m with modelStoreID := s.nextID } m.data (updatedState t m s) := by
  have hlt := modelStoreID_lt_nextID hInv hStored
  obtain ⟨hsid, hmid, -⟩ := hStored
  unfold storedAs
  refine ⟨hsid, ?_, ?_⟩
  · show s.nextID ≠ 0
    omega
  · unfold lookupObj
    rw [updatedState_store]
    show (Option.map Prod.snd
      ((removeID ((s.nextID, { stableID := m.stableID, kind := t, data := m.data }) :: s.store)
          m.modelStoreID).find? (fun p => p.fst == s.nextID))) =
      some { stableID := m.stableID, kind := t, data := m.data }
    unfold removeID
    rw [List.filter_cons_of_pos (by simp; omega)]
    rw [List.find?_cons_of_pos _ (by simp)]
    rfl

lemma getWithModelStoreID_after_update {t : ModelKind} {m : ModelData} {d : String} {s : MSState}
    (hStored : storedAs t m d s) :
    GetWithModelStoreID t m.modelStoreID (updatedState t m s) = .error .notFound := by
  obtain ⟨-, hmid, -⟩ := hStored
  unfold GetWithModelStoreID
  rw [if_neg hmid]
  have : lookupObj (updatedState t m s) m.modelStoreID = none := by
    unfold lookupObj
    have h : (updatedState t m s).store.find? (fun p => p.fst == m.modelStoreID) = none := by
      rw [List.find?_eq_none]
      intro p hp
      simp only [updatedState, removeID, List.mem_filter] at hp
      simpa using hp.2
    rw [h]
    rfl
  rw [this]

lemma put_ok {t : ModelKind} (m : ModelData) (s : MSState) (hT : t ≠ ModelKind.unknownModel) :
    Put t m s = .ok
      ({ m with stableID := s.nextID, modelStoreID := s.nextID + 1 },
       { store := (s.nextID + 1,
           { stableID := s.nextID, kind := t, data := m.data }) :: s.store,
         nextID := s.nextID + 2 }) := by
  unfold Put
  rw [if_neg hT]

lemma put_inv {t : ModelKind} {m m' : ModelData} {s s' : MSState}
    (hInv : msInv s) (hPut : Put t m s = .ok (m', s')) :
    msInv s' ∧ storedAs t m' m.data s' ∧ m'.stableID = s.nextID := by
  unfold Put at hPut
  by_cases hT : t = ModelKind.unknownModel
  · rw [if_pos hT] at hPut; cases hPut
  rw [if_neg hT] at hPut
  simp only [Except.ok.injEq, Prod.mk.injEq] at hPut
  obtain ⟨hm, hs⟩ := hPut
  subst hm; subst hs
  have h0 := hInv.1
  refine ⟨⟨?_, ?_⟩, ?_, rfl⟩
  · show 0 < s.nextID + 2
    omega
  · intro p hp
    show p.fst < s.nextID + 2 ∧ p.snd.stableID < s.nextID + 2
    rcases List.mem_cons.mp hp with h | h
    · subst h
      exact ⟨by show s.nextID + 1 < s.nextID + 2; omega,
             by show s.nextID < s.nextID + 2; omega⟩
    · have := hInv.2 p h
      omega
  · unfold storedAs
    refine ⟨by show s.nextID ≠ 0; omega, by show s.nextID + 1 ≠ 0; omega, ?_⟩
    unfold lookupObj
    show (Option.map Prod.snd
      (((s.nextID + 1, { stableID := s.nextID, kind := t, data := m.data }) ::
          s.store).find? (fun p => p.fst == s.nextID + 1))) =
      some { stableID := s.nextID, kind := t, data := m.data }
    rw [List.find?_cons_of_pos _ (by simp)]
    rfl

end Corso

namespace Corso

/-- Modelled from the spec: a sequence of `Update` calls, each writing a new
payload for the same model; each call feeds the model returned by the
previous call (with the fresh ModelStoreID) into the next. -/
def applyUpdates (t : ModelKind) : List String → ModelData × MSState → ModelData × MSState
  | [], p => p
  | dnew :: ds, (m, s) =>
    match Update false t { m with data := dnew } s with
    | (.ok m', s') => applyUpdates t ds (m', s')
    | (.error _, s') => ({ m with data := dnew }, s')

lemma applyUpdates_cons_ok {t : ModelKind} {m : ModelData} {d : String} {s : MSState}
    (hInv : msInv s) (hStored : storedAs t m d s) (hT : t ≠ ModelKind.unknownModel)
    (dnew : String) (ds : List String) :
    applyUpdates t (dnew :: ds) (m, s) =
      applyUpdates t ds ({ m with data := dnew, modelStoreID := s.nextID },
        updatedState t { m with data := dnew } s) := by
  have hStored' : storedAs t { m with data := dnew } d s := hStored
  have := hInv
  show (match Update false t { m with data := dnew } s with
    | (.ok m', s') => applyUpdates t ds (m', s')
    | (.error _, s') => ({ m with data := dnew }, s')) = _
  rw [update_ok hStored' hT]

lemma applyUpdates_props (t : ModelKind) (hT : t ≠ ModelKind.unknownModel) :
    ∀ (ds : List String) (m : ModelData) (d : String) (s : MSState),
      msInv s → storedAs t m d s →
      (applyUpdates t ds (m, s)).1.stableID = m.stableID ∧
      msInv (applyUpdates t ds (m, s)).2 ∧
      ∃ d', storedAs t (applyUpdates t ds (m, s)).1 d' (applyUpdates t ds (m, s)).2
  | [], m, d, s, hInv, hStored => ⟨rfl, hInv, ⟨d, hStored⟩⟩
  | dnew :: ds, m, d, s, hInv, hStored => by
    rw [applyUpdates_cons_ok hInv hStored hT dnew ds]
    have hStored1 : storedAs t { m with data := dnew } d s := hStored
    have hInv' := msInv_updatedState hInv hStored1
    have hStored' := storedAs_updatedState hInv hStored1
    exact applyUpdates_props t hT ds _ _ _ hInv' hStored'

lemma applyUpdates_step (t : ModelKind) (hT : t ≠ ModelKind.unknownModel) :
    ∀ (ds : List String) (k : Nat) (m : ModelData) (d : String) (s : MSState),
      msInv s → storedAs t m d s → k < ds.length →
      (applyUpdates t (ds.take (k+1)) (m, s)).1.modelStoreID ≠
        (applyUpdates t (ds.take k) (m, s)).1.modelStoreID ∧
      GetWithModelStoreID t (applyUpdates t (ds.take k) (m, s)).1.modelStoreID
        (applyUpdates t (ds.take (k+1)) (m, s)).2 = .error .notFound
  | [], k, m, d, s, _, _, hk => absurd hk (by simp)
  | dnew :: rest, 0, m, d, s, hInv, hStored, _ => by
    have hStored1 : storedAs t { m with data := dnew } d s := hStored
    have hlt := modelStoreID_lt_nextID hInv hStored
    simp only [List.take_succ_cons, List.take_zero]
    rw [applyUpdates_cons_ok hInv hStored hT dnew []]
    refine ⟨?_, ?_⟩
    · show s.nextID ≠ m.modelStoreID
      omega
    · show GetWithModelStoreID t m.modelStoreID (updatedState t { m with data := dnew } s) =
        .error .notFound
      exact getWithModelStoreID_after_update hStored1
  | dnew :: rest, k + 1, m, d, s, hInv, hStored, hk => by
    have hStored1 : storedAs t { m with data := dnew } d s := hStored
    have hInv' := msInv_updatedState hInv hStored1
    have hStored' := storedAs_updatedState hInv hStored1
    simp only [List.take_succ_cons]
    rw [applyUpdates_cons_ok hInv hStored hT dnew (rest.take (k+1)),
        applyUpdates_cons_ok hInv hStored hT dnew (rest.take k)]
    exact applyUpdates_step t hT rest k _ _ _ hInv' hStored'
      (by simpa using Nat.lt_of_succ_lt_succ hk)

/-- C1: if an Update's write session fails after the new physical object is
written (under ModelStoreID `s.nextID`) but before the session commits, the
session rolls back: reading the new ModelStoreID fails with not-found and
reading the old ModelStoreID still returns the pre-update content `d`. -/
theorem update_write_session_failure_invisible
    (t : ModelKind) (m : ModelData) (d : String) (s : MSState)
    (hInv : msInv s) (hStored : storedAs t m d s) (hT : t ≠ ModelKind.unknownModel) :
    Update true t m s = (.error .injected, s) ∧
    GetWithModelStoreID t s.nextID (Update true t m s).2 = .error .notFound ∧
    GetWithModelStoreID t m.modelStoreID (Update true t m s).2 =
      .ok { stableID := m.stableID, modelStoreID := m.modelStoreID, data := d } := by
  have hu := update_fault hStored hT
  refine ⟨hu, ?_, ?_⟩
  · rw [hu]
    exact getWithModelStoreID_fresh t s hInv
  · rw [hu]
    exact getWithModelStoreID_stored hStored

/-- Witness for C1 at a concrete store state. -/
theorem update_write_session_failure_invisible_witness :
    Update true ModelKind.backupOpModel ⟨2, 1, "y"⟩
        ⟨[(1, ⟨2, ModelKind.backupOpModel, "x"⟩)], 3⟩ =
      (.error .injected, ⟨[(1, ⟨2, ModelKind.backupOpModel, "x"⟩)], 3⟩) ∧
    GetWithModelStoreID ModelKind.backupOpModel 3
        (Update true ModelKind.backupOpModel ⟨2, 1, "y"⟩
          ⟨[(1, ⟨2, ModelKind.backupOpModel, "x"⟩)], 3⟩).2 = .error .notFound ∧
    GetWithModelStoreID ModelKind.backupOpModel 1
        (Update true ModelKind.backupOpModel ⟨2, 1, "y"⟩
          ⟨[(1, ⟨2, ModelKind.backupOpModel, "x"⟩)], 3⟩).2 = .ok ⟨2, 1, "x"⟩ :=
  update_write_session_failure_invisible ModelKind.backupOpModel ⟨2, 1, "y"⟩ "x"
    ⟨[(1, ⟨2, ModelKind.backupOpModel, "x"⟩)], 3⟩
    ⟨by decide, by decide⟩ ⟨by decide, by decide, by decide⟩ (by decide)

/-- C4: starting from a successful `Put`, over any sequence of successful
Updates the StableID never changes (it stays the one assigned at Put), while
every Update changes the ModelStoreID and makes the previous ModelStoreID
unreadable (not-found). -/
theorem stableID_invariant_modelStoreID_changes
    (t : ModelKind) (m0 m : ModelData) (s0 s : MSState) (ds : List String) (k : Nat)
    (hT : t ≠ ModelKind.unknownModel) (hInv0 : msInv s0)
    (hPut : Put t m0 s0 = .ok (m, s)) :
    (applyUpdates t (ds.take k) (m, s)).1.stableID = m.stableID ∧
    m.stableID = s0.nextID ∧
    (k < ds.length →
      (applyUpdates t (ds.take (k+1)) (m, s)).1.modelStoreID ≠
        (applyUpdates t (ds.take k) (m, s)).1.modelStoreID ∧
      GetWithModelStoreID t (applyUpdates t (ds.take k) (m, s)).1.modelStoreID
        (applyUpdates t (ds.take (k+1)) (m, s)).2 = .error .notFound) := by
  obtain ⟨hInv, hStored, hsid⟩ := put_inv hInv0 hPut
  exact ⟨(applyUpdates_props t hT (ds.take k) m m0.data s hInv hStored).1, hsid,
         fun hk => applyUpdates_step t hT ds k m m0.data s hInv hStored hk⟩

/-- Witness for C4: two updates starting from a freshly Put model. -/
theorem stableID_invariant_modelStoreID_changes_witness :
    (applyUpdates ModelKind.backupOpModel (["b", "c"].take 1)
        (⟨1, 2, "a"⟩, ⟨[(2, ⟨1, ModelKind.backupOpModel, "a"⟩)], 3⟩)).1.stableID =
      (⟨1, 2, "a"⟩ : ModelData).stableID ∧
    (⟨1, 2, "a"⟩ : ModelData).stableID = (⟨[], 1⟩ : MSState).nextID ∧
    (1 < (["b", "c"] : List String).length →
      (applyUpdates ModelKind.backupOpModel (["b", "c"].take 2)
          (⟨1, 2, "a"⟩, ⟨[(2, ⟨1, ModelKind.backupOpModel, "a"⟩)], 3⟩)).1.modelStoreID ≠
        (applyUpdates ModelKind.backupOpModel (["b", "c"].take 1)
          (⟨1, 2, "a"⟩, ⟨[(2, ⟨1, ModelKind.backupOpModel, "a"⟩)], 3⟩)).1.modelStoreID ∧
      GetWithModelStoreID ModelKind.backupOpModel
          (applyUpdates ModelKind.backupOpModel (["b", "c"].take 1)
            (⟨1, 2, "a"⟩, ⟨[(2, ⟨1, ModelKind.backupOpModel, "a"⟩)], 3⟩)).1.modelStoreID
          (applyUpdates ModelKind.backupOpModel (["b", "c"].take 2)
            (⟨1, 2, "a"⟩, ⟨[(2, ⟨1, ModelKind.backupOpModel, "a"⟩)], 3⟩)).2 =
        .error .notFound) :=
  stableID_invariant_modelStoreID_changes ModelKind.backupOpModel ⟨0, 0, "a"⟩ ⟨1, 2, "a"⟩
    ⟨[], 1⟩ ⟨[(2, ⟨1, ModelKind.backupOpModel, "a"⟩)], 3⟩ ["b", "c"] 1
    (by decide) ⟨by decide, by decide⟩ rfl

/-- C9: deleting an absent model succeeds as a no-op (state unchanged), for
both `Delete` and `DeleteWithModelStoreID`, while `Get` and
`GetWithModelStoreID` on the same absent id fail with not-found. -/
theorem delete_absent_noop
    (t : ModelKind) (id : Nat) (s : MSState)
    (hid : id ≠ 0)
    (hstable : ∀ p ∈ s.store, p.snd.stableID ≠ id)
    (hphys : ∀ p ∈ s.store, p.fst ≠ id) :
    Delete t id s = .ok s ∧
    DeleteWithModelStoreID id s = .ok s ∧
    Get t id s = .error .notFound ∧
    GetWithModelStoreID t id s = .error .notFound := by
  have hfindStable : s.store.find? (fun p => p.snd.stableID == id) = none := by
    rw [List.find?_eq_none]
    intro p hp
    simpa using hstable p hp
  have hfindPhys : s.store.find? (fun p => p.fst == id) = none := by
    rw [List.find?_eq_none]
    intro p hp
    simpa using hphys p hp
  have hfilter : removeID s.store id = s.store := by
    unfold removeID
    rw [List.filter_eq_self]
    intro p hp
    simpa using hphys p hp
  refine ⟨?_, ?_, ?_, ?_⟩
  · unfold Delete
    rw [if_neg hid, hfindStable]
  · unfold DeleteWithModelStoreID
    rw [if_neg hid, hfilter]
  · unfold Get
    rw [if_neg hid, hfindStable]
  · unfold GetWithModelStoreID
    have : lookupObj s id = none := by
      unfold lookupObj
      rw [hfindPhys]
      rfl
    rw [if_neg hid, this]

/-- Witness for C9 at a concrete store state and absent id. -/
theorem delete_absent_noop_witness :
    Delete ModelKind.backupOpModel 7 ⟨[(1, ⟨2, ModelKind.backupOpModel, "x"⟩)], 3⟩ =
      .ok ⟨[(1, ⟨2, ModelKind.backupOpModel, "x"⟩)], 3⟩ ∧
    DeleteWithModelStoreID 7 ⟨[(1, ⟨2, ModelKind.backupOpModel, "x"⟩)], 3⟩ =
      .ok ⟨[(1, ⟨2, ModelKind.backupOpModel, "x"⟩)], 3⟩ ∧
    Get ModelKind.backupOpModel 7 ⟨[(1, ⟨2, ModelKind.backupOpModel, "x"⟩)], 3⟩ =
      .error .notFound ∧
    GetWithModelStoreID ModelKind.backupOpModel 7
      ⟨[(1, ⟨2, ModelKind.backupOpModel, "x"⟩)], 3⟩ = .error .notFound :=
  delete_absent_noop ModelKind.backupOpModel 7 ⟨[(1, ⟨2, ModelKind.backupOpModel, "x"⟩)], 3⟩
    (by decide) (by decide) (by decide)

end Corso

namespace Corso

/-! ## Manifest selector (internal/kopia/snapshot_manager.go)

Embedded from the Go source.  A kopia `snapshot.Manifest` is reduced to the
fields the selector reads: its id, its IncompleteReason (empty means the
snapshot is complete) and its modification time.  A `manifest.EntryMetadata`
keeps the id and the modification time.  The snapshot-manager collaborator is
modelled by the list of full manifests matching one tag query (`FindManifests`
returns their metadata, `LoadSnapshots` looks bodies up by id); a query can
fail, which is the error path of `fetchPrevManifests`. -/

structure Manifest where
  id : String
  incompleteReason : String
  modTime : Nat
deriving DecidableEq, Repr

structure EntryMetadata where
  id : String
  modTime : Nat
deriving DecidableEq, Repr

def Manifest.meta (m : Manifest) : EntryMetadata :=
  { id := m.id, modTime := m.modTime }

def manTimeLE (a b : Manifest) : Prop := a.modTime ≤ b.modTime

instance : DecidableRel manTimeLE := fun a b => Nat.decLe a.modTime b.modTime

instance : IsTotal Manifest manTimeLE := ⟨fun a b => Nat.le_total a.modTime b.modTime⟩

instance : IsTrans Manifest manTimeLE := ⟨fun _ _ _ => Nat.le_trans⟩

def metaTimeLE (a b : EntryMetadata) : Prop := a.modTime ≤ b.modTime

instance : DecidableRel metaTimeLE := fun a b => Nat.decLe a.modTime b.modTime

instance : IsTotal EntryMetadata metaTimeLE := ⟨fun a b => Nat.le_total a.modTime b.modTime⟩

instance : IsTrans EntryMetadata metaTimeLE := ⟨fun _ _ _ => Nat.le_trans⟩

/-- snapshot.SortByTime(mans, false): sort manifests oldest to newest. -/
def SortByTime (l : List Manifest) : List Manifest := List.insertionSort manTimeLE l

/-- The ascending sort of entry metadata performed inside getLastIdx. -/
def sortMetas (l : List EntryMetadata) : List EntryMetadata :=
  List.insertionSort metaTimeLE l

/-- Is the metadata entry backed by a *complete* manifest in the
already-found cache?  (`m == nil || len(m.IncompleteReason) > 0` skipped.) -/
def isCachedComplete (foundMans : List (String × Manifest)) (e : EntryMetadata) : Bool :=
  match (foundMans.find? (fun p => p.fst == e.id)).map Prod.snd with
  | some m => m.incompleteReason == ""
  | none => false

/-- getLastIdx: index (into the time-sorted metadata list) of the most recent
entry whose cached manifest is complete; `none` models Go's -1.  The Go code
scans newest to oldest; this recursion returns the rightmost hit. -/
def getLastIdx (foundMans : List (String × Manifest)) : List EntryMetadata → Option Nat
  | [] => none
  | e :: rest =>
    match getLastIdx foundMans rest with
    | some i => some (i + 1)
    | none => if isCachedComplete foundMans e then some 0 else none

/-- The scan of manifestsSinceLastComplete, newest to oldest: record the first
(most recent) incomplete manifest, stop at the first complete one. -/
def sinceLastCompleteAux : List Manifest → Bool → List Manifest
  | [], _ => []
  | m :: rest, foundIncomplete =>
    if m.incompleteReason == "" then [m]
    else if foundIncomplete then sinceLastCompleteAux rest true
    else m :: sinceLastCompleteAux rest true

/-- manifestsSinceLastComplete: the most recent complete manifest (if any)
plus the most recent incomplete manifest when it is newer than that complete
one.  The Go loop walks the ascending-sorted slice from its end; here the
sorted list is reversed and walked front to back. -/
def manifestsSinceLastComplete (mans : List Manifest) : List Manifest :=
  sinceLastCompleteAux (SortByTime mans).reverse false

/-- LoadSnapshots: look manifest bodies up by id in the query result. -/
def loadSnapshots (db : List Manifest) (ids : List String) : List Manifest :=
  ids.filterMap (fun i => db.find? (fun m => m.id == i))

/-- The body of fetchPrevManifests once the metadata query succeeded:
sort the metadata, locate the most recent cached complete manifest, and run
manifestsSinceLastComplete over everything newer than it. -/
def selectPrevManifests (foundMans : List (String × Manifest)) (db : List Manifest) :
    List Manifest :=
  let metas := sortMetas (db.map Manifest.meta)
  if metas.length = 0 then []
  else
    match getLastIdx foundMans metas with
    | some i =>
      if i = metas.length - 1 then []
      else
        manifestsSinceLastComplete
          (loadSnapshots db ((metas.drop (i + 1)).map EntryMetadata.id))
    | none => manifestsSinceLastComplete (loadSnapshots db (metas.map EntryMetadata.id))

/-- fetchPrevManifests: `qres` is the outcome of the FindManifests tag query;
on error the function returns no manifests and the error. -/
def fetchPrevManifests (foundMans : List (String × Manifest))
    (qres : Except Unit (List Manifest)) : Except Unit (List Manifest) :=
  match qres with
  | .error e => .error e
  | .ok db => .ok (selectPrevManifests foundMans db)

/-- mans[m.ID] = m : insert/replace into the accumulated dedup map. -/
def insertMan (acc : List (String × Manifest)) (m : Manifest) : List (String × Manifest) :=
  (m.id, m) :: acc.filter (fun p => !(p.fst == m.id))

/-- The loop of fetchPrevSnapshotManifests over the (service-category,
resource-owner) cross product, here a list of opaque tag-query keys.  A
failing query is logged and skipped; a successful one adds its manifests to
the dedup map. -/
def fetchPrevSnapshotManifestsAux (query : String → Except Unit (List Manifest)) :
    List String → List (String × Manifest) → List (String × Manifest)
  | [], acc => acc
  | p :: ps, acc =>
    match fetchPrevManifests acc (query p) with
    | .error _ => fetchPrevSnapshotManifestsAux query ps acc
    | .ok found => fetchPrevSnapshotManifestsAux query ps (found.foldl insertMan acc)

/-- fetchPrevSnapshotManifests: run the selection for every pair and return
the deduplicated manifests. -/
def fetchPrevSnapshotManifests (query : String → Except Unit (List Manifest))
    (pairs : List String) : List Manifest :=
  (fetchPrevSnapshotManifestsAux query pairs []).map Prod.snd

/-- Does the tag query for this pair succeed? -/
def querySucceeds (query : String → Except Unit (List Manifest)) (p : String) : Bool :=
  match query p with
  | .ok _ => true
  | .error _ => false

lemma fetchPrevSnapshotManifestsAux_filter
    (query : String → Except Unit (List Manifest)) :
    ∀ (pairs : List String) (acc : List (String × Manifest)),
      fetchPrevSnapshotManifestsAux query pairs acc =
        fetchPrevSnapshotManifestsAux query (pairs.filter (querySucceeds query)) acc
  | [], _ => rfl
  | p :: ps, acc => by
    cases hq : query p with
    | error e =>
      have hqs : querySucceeds query p = false := by
        unfold querySucceeds
        rw [hq]
      rw [List.filter_cons_of_neg (by rw [hqs]; exact Bool.false_ne_true)]
      show (match fetchPrevManifests acc (query p) with
        | .error _ => fetchPrevSnapshotManifestsAux query ps acc
        | .ok found => fetchPrevSnapshotManifestsAux query ps (found.foldl insertMan acc)) = _
      rw [hq]
      show fetchPrevSnapshotManifestsAux query ps acc = _
      exact fetchPrevSnapshotManifestsAux_filter query ps acc
    | ok db =>
      have hqs : querySucceeds query p = true := by
        unfold querySucceeds
        rw [hq]
      rw [List.filter_cons_of_pos (by rw [hqs])]
      show (match fetchPrevManifests acc (query p) with
        | .error _ => fetchPrevSnapshotManifestsAux query ps acc
        | .ok found => fetchPrevSnapshotManifestsAux query ps (found.foldl insertMan acc)) = _
      rw [hq]
      show fetchPrevSnapshotManifestsAux query ps ((selectPrevManifests acc db).foldl insertMan acc) =
        (match fetchPrevManifests acc (query p) with
        | .error _ =>
            fetchPrevSnapshotManifestsAux query (ps.filter (querySucceeds query)) acc
        | .ok found =>
            fetchPrevSnapshotManifestsAux query (ps.filter (querySucceeds query))
              (found.foldl insertMan acc))
      rw [hq]
      exact fetchPrevSnapshotManifestsAux_filter query ps _

/-- C8: a failed tag query for one pair is skipped and does not abort the
selection: the returned manifest set is exactly the one obtained by running
the selection over the successfully queried pairs alone. -/
theorem fetch_failure_skips_pair (query : String → Except Unit (List Manifest))
    (pairs : List String) :
    fetchPrevSnapshotManifests query pairs =
      fetchPrevSnapshotManifests query (pairs.filter (querySucceeds query)) := by
  unfold fetchPrevSnapshotManifests
  rw [fetchPrevSnapshotManifestsAux_filter query pairs []]

end Corso

namespace Corso

/-! ### Per-pair selection properties (snapshot_manager.go) -/

lemma sinceLastCompleteAux_subset :
    ∀ (l : List Manifest) (b : Bool), ∀ x ∈ sinceLastCompleteAux l b, x ∈ l
  | [], _ => by
    intro x hx
    cases hx
  | m :: rest, b => by
    intro x hx
    unfold sinceLastCompleteAux at hx
    split at hx
    · rcases List.mem_singleton.mp hx with rfl
      exact List.mem_cons_self _ _
    · split at hx
      · exact List.mem_cons_of_mem m (sinceLastCompleteAux_subset rest true x hx)
      · rcases List.mem_cons.mp hx with rfl | hx'
        · exact List.mem_cons_self _ _
        · exact List.mem_cons_of_mem m (sinceLastCompleteAux_subset rest true x hx')

lemma sinceLastCompleteAux_true_complete :
    ∀ (l : List Manifest), ∀ x ∈ sinceLastCompleteAux l true, x.incompleteReason = ""
  | [] => by
    intro x hx
    cases hx
  | m :: rest => by
    intro x hx
    unfold sinceLastCompleteAux at hx
    split at hx
    next hc =>
      rcases List.mem_singleton.mp hx with rfl
      simpa using hc
    next hc =>
      rw [if_pos rfl] at hx
      exact sinceLastCompleteAux_true_complete rest x hx

lemma sinceLastCompleteAux_true_length :
    ∀ (l : List Manifest), (sinceLastCompleteAux l true).length ≤ 1
  | [] => by simp [sinceLastCompleteAux]
  | m :: rest => by
    unfold sinceLastCompleteAux
    split
    · simp
    · rw [if_pos rfl]
      exact sinceLastCompleteAux_true_length rest

lemma sinceLastCompleteAux_false_length (l : List Manifest) :
    (sinceLastCompleteAux l false).length ≤ 2 := by
  cases l with
  | nil => simp [sinceLastCompleteAux]
  | cons m rest =>
    unfold sinceLastCompleteAux
    split
    · simp
    · rw [if_neg (by simp)]
      simp only [List.length_cons]
      have := sinceLastCompleteAux_true_length rest
      omega

lemma sinceLastCompleteAux_complete_count :
    ∀ (l : List Manifest) (b : Bool),
      (sinceLastCompleteAux l b).countP (fun x => x.incompleteReason == "") ≤ 1
  | [], _ => by simp [sinceLastCompleteAux]
  | m :: rest, b => by
    unfold sinceLastCompleteAux
    split
    next hc =>
      rw [List.countP_cons]
      simp only [List.countP_nil]
      split <;> simp
    next hc =>
      split
      · exact sinceLastCompleteAux_complete_count rest true
      · rw [List.countP_cons, if_neg hc]
        simpa using sinceLastCompleteAux_complete_count rest true

lemma sinceLastCompleteAux_true_incomplete_count (l : List Manifest) :
    (sinceLastCompleteAux l true).countP (fun x => !(x.incompleteReason == "")) = 0 := by
  rw [List.countP_eq_zero]
  intro a ha
  have := sinceLastCompleteAux_true_complete l a ha
  simp [this]

lemma sinceLastCompleteAux_false_incomplete_count (l : List Manifest) :
    (sinceLastCompleteAux l false).countP (fun x => !(x.incompleteReason == "")) ≤ 1 := by
  cases l with
  | nil => simp [sinceLastCompleteAux]
  | cons m rest =>
    unfold sinceLastCompleteAux
    split
    · rw [List.countP_cons]
      simp only [List.countP_nil]
      split <;> simp
    · rw [if_neg (by simp), List.countP_cons,
        sinceLastCompleteAux_true_incomplete_count rest]
      split <;> simp

lemma sinceLastCompleteAux_newest_complete :
    ∀ (l : List Manifest) (b : Bool),
      l.Pairwise (fun a c => c.modTime < a.modTime) →
      ∀ c ∈ sinceLastCompleteAux l b, c.incompleteReason = "" →
      ∀ c' ∈ l, c'.incompleteReason = "" → c'.modTime ≤ c.modTime
  | [], _ => by
    intro _ c hc
    cases hc
  | m :: rest, b => by
    intro hdesc c hc hcomp c' hc' hcomp'
    obtain ⟨hm, hrest⟩ := List.pairwise_cons.mp hdesc
    unfold sinceLastCompleteAux at hc
    split at hc
    next hcm =>
      rcases List.mem_singleton.mp hc with rfl
      rcases List.mem_cons.mp hc' with rfl | h'
      · exact Nat.le_refl _
      · exact Nat.le_of_lt (hm c' h')
    next hcm =>
      have hcrec : c ∈ sinceLastCompleteAux rest true := by
        split at hc
        · exact hc
        · rcases List.mem_cons.mp hc with rfl | h
          · exact absurd (by simpa using hcomp) hcm
          · exact h
      rcases List.mem_cons.mp hc' with rfl | h'
      · exact absurd (by simpa using hcomp') hcm
      · exact sinceLastCompleteAux_newest_complete rest true hrest c hcrec hcomp c' h' hcomp'

lemma sinceLastCompleteAux_incomplete_newest :
    ∀ (l : List Manifest),
      l.Pairwise (fun a c => c.modTime < a.modTime) →
      ∀ x ∈ sinceLastCompleteAux l false, x.incompleteReason ≠ "" →
      (∀ x' ∈ l, x'.incompleteReason ≠ "" → x'.modTime ≤ x.modTime) ∧
      (∀ c ∈ l, c.incompleteReason = "" → c.modTime < x.modTime)
  | [] => by
    intro _ x hx
    cases hx
  | m :: rest => by
    intro hdesc x hx hxinc
    obtain ⟨hm, hrest⟩ := List.pairwise_cons.mp hdesc
    unfold sinceLastCompleteAux at hx
    split at hx
    next hcm =>
      rcases List.mem_singleton.mp hx with rfl
      exact absurd (by simpa using hcm) hxinc
    next hcm =>
      rw [if_neg (by simp)] at hx
      rcases List.mem_cons.mp hx with rfl | h
      · constructor
        · intro x' hx' hx'inc
          rcases List.mem_cons.mp hx' with rfl | h'
          · exact Nat.le_refl _
          · exact Nat.le_of_lt (hm x' h')
        · intro c hcmem hccomp
          rcases List.mem_cons.mp hcmem with rfl | h'
          · exact absurd (by simpa using hccomp) hcm
          · exact hm c h'
      · exact absurd (sinceLastCompleteAux_true_complete rest x h) hxinc

lemma msc_input_desc (mans : List Manifest)
    (hdist : mans.Pairwise (fun a b => a.modTime ≠ b.modTime)) :
    (SortByTime mans).reverse.Pairwise (fun a b => b.modTime < a.modTime) := by
  have hperm : List.Perm (SortByTime mans) mans := List.perm_insertionSort manTimeLE mans
  have hsorted : (SortByTime mans).Sorted manTimeLE :=
    List.sorted_insertionSort manTimeLE mans
  have hdist' : (SortByTime mans).Pairwise (fun a b => a.modTime ≠ b.modTime) :=
    (hperm.pairwise_iff (fun h => h.symm)).mpr hdist
  have hstrict : (SortByTime mans).Pairwise (fun a b => a.modTime < b.modTime) :=
    (hsorted.and hdist').imp (fun h => Nat.lt_of_le_of_ne h.1 h.2)
  rw [List.pairwise_reverse]
  exact hstrict

lemma msc_mem_iff (mans : List Manifest) (x : Manifest) :
    x ∈ (SortByTime mans).reverse ↔ x ∈ mans := by
  rw [List.mem_reverse]
  exact (List.perm_insertionSort manTimeLE mans).mem_iff

lemma msc_props (mans : List Manifest)
    (hdist : mans.Pairwise (fun a b => a.modTime ≠ b.modTime)) :
    (manifestsSinceLastComplete mans).length ≤ 2 ∧
    (∀ x ∈ manifestsSinceLastComplete mans, x ∈ mans) ∧
    (manifestsSinceLastComplete mans).countP (fun x => !(x.incompleteReason == "")) ≤ 1 ∧
    (manifestsSinceLastComplete mans).countP (fun x => x.incompleteReason == "") ≤ 1 ∧
    (∀ c ∈ manifestsSinceLastComplete mans, c.incompleteReason = "" →
      ∀ c' ∈ mans, c'.incompleteReason = "" → c'.modTime ≤ c.modTime) ∧
    (∀ x ∈ manifestsSinceLastComplete mans, x.incompleteReason ≠ "" →
      (∀ x' ∈ mans, x'.incompleteReason ≠ "" → x'.modTime ≤ x.modTime) ∧
      (∀ c ∈ mans, c.incompleteReason = "" → c.modTime < x.modTime)) := by
  have hdesc := msc_input_desc mans hdist
  unfold manifestsSinceLastComplete
  refine ⟨sinceLastCompleteAux_false_length _, ?_,
    sinceLastCompleteAux_false_incomplete_count _,
    sinceLastCompleteAux_complete_count _ false, ?_, ?_⟩
  · intro x hx
    exact (msc_mem_iff mans x).mp (sinceLastCompleteAux_subset _ false x hx)
  · intro c hc hcomp c' hc' hcomp'
    exact sinceLastCompleteAux_newest_complete _ false hdesc c hc hcomp c'
      ((msc_mem_iff mans c').mpr hc') hcomp'
  · intro x hx hxinc
    obtain ⟨h1, h2⟩ := sinceLastCompleteAux_incomplete_newest _ hdesc x hx hxinc
    exact ⟨fun x' hx' hinc => h1 x' ((msc_mem_iff mans x').mpr hx') hinc,
           fun c hcm hcc => h2 c ((msc_mem_iff mans c).mpr hcm) hcc⟩

end Corso

namespace Corso

lemma id_inj_of_nodup {db : List Manifest} (hids : (db.map Manifest.id).Nodup) :
    ∀ a ∈ db, ∀ b ∈ db, a.id = b.id → a = b := by
  have hp : db.Pairwise (fun a b => a.id ≠ b.id) := List.pairwise_map.mp hids
  have hsymm : Symmetric (fun a b : Manifest => a.id ≠ b.id) := fun _ _ h he => h he.symm
  intro a ha b hb hab
  by_contra hne
  exact List.Pairwise.forall hsymm hp ha hb hne hab

lemma loadSnapshots_sound (db : List Manifest) (ids : List String) :
    ∀ m ∈ loadSnapshots db ids, m ∈ db ∧ m.id ∈ ids := by
  intro m hm
  unfold loadSnapshots at hm
  rw [List.mem_filterMap] at hm
  obtain ⟨i, hi, hfind⟩ := hm
  have hmem := List.mem_of_find?_eq_some hfind
  have hpred := List.find?_some hfind
  simp only [beq_iff_eq] at hpred
  exact ⟨hmem, hpred ▸ hi⟩

lemma loadSnapshots_complete {db : List Manifest} (hids : (db.map Manifest.id).Nodup)
    (es : List EntryMetadata) :
    ∀ m ∈ db, Manifest.meta m ∈ es → m ∈ loadSnapshots db (es.map EntryMetadata.id) := by
  intro m hm hme
  unfold loadSnapshots
  rw [List.mem_filterMap]
  refine ⟨m.id, List.mem_map.mpr ⟨Manifest.meta m, hme, rfl⟩, ?_⟩
  have hsome : (db.find? (fun x => x.id == m.id)).isSome := by
    rw [List.find?_isSome]
    exact ⟨m, hm, by simp⟩
  obtain ⟨m', hm'⟩ := Option.isSome_iff_exists.mp hsome
  have hmem' := List.mem_of_find?_eq_some hm'
  have hpred' := List.find?_some hm'
  simp only [beq_iff_eq] at hpred'
  rw [hm', id_inj_of_nodup hids m' hmem' m hm hpred']

lemma loadSnapshots_meta_mem {db : List Manifest} (hids : (db.map Manifest.id).Nodup)
    {es : List EntryMetadata} (hes : ∀ e ∈ es, ∃ m ∈ db, Manifest.meta m = e) :
    ∀ m ∈ loadSnapshots db (es.map EntryMetadata.id), Manifest.meta m ∈ es := by
  intro m hm
  obtain ⟨hmdb, hmid⟩ := loadSnapshots_sound db _ m hm
  rw [List.mem_map] at hmid
  obtain ⟨e, he, heid⟩ := hmid
  obtain ⟨m0, hm0, hm0e⟩ := hes e he
  have h1 : m.id = e.id := heid.symm
  have h2 : m0.id = e.id := by
    rw [← hm0e]
    simp [Manifest.meta]
  have hmeq : m = m0 := id_inj_of_nodup hids m hmdb m0 hm0 (h1.trans h2.symm)
  rw [hmeq, hm0e]
  exact he

lemma loadSnapshots_map_id {db : List Manifest} :
    ∀ (es : List EntryMetadata), (∀ e ∈ es, ∃ m ∈ db, Manifest.meta m = e) →
      (loadSnapshots db (es.map EntryMetadata.id)).map Manifest.id = es.map EntryMetadata.id
  | [], _ => rfl
  | e :: es, hes => by
    obtain ⟨m0, hm0, hm0e⟩ := hes e (List.mem_cons_self e es)
    have hsome : (db.find? (fun x => x.id == e.id)).isSome := by
      rw [List.find?_isSome]
      refine ⟨m0, hm0, ?_⟩
      rw [← hm0e]
      simp [Manifest.meta]
    obtain ⟨m', hm'⟩ := Option.isSome_iff_exists.mp hsome
    have hpred' := List.find?_some hm'
    simp only [beq_iff_eq] at hpred'
    unfold loadSnapshots
    rw [List.map_cons, List.filterMap_cons]
    rw [show (db.find? (fun m => m.id == e.id)) = some m' from hm']
    rw [List.map_cons, hpred']
    have hrec := loadSnapshots_map_id es (fun e' he' => hes e' (List.mem_cons_of_mem e he'))
    unfold loadSnapshots at hrec
    rw [hrec]

lemma loadSnapshots_nodup {db : List Manifest}
    {es : List EntryMetadata} (hes : ∀ e ∈ es, ∃ m ∈ db, Manifest.meta m = e)
    (hesid : (es.map EntryMetadata.id).Nodup) :
    (loadSnapshots db (es.map EntryMetadata.id)).Nodup := by
  have h := loadSnapshots_map_id es hes
  have h2 : ((loadSnapshots db (es.map EntryMetadata.id)).map Manifest.id).Nodup := by
    rw [h]
    exact hesid
  exact h2.of_map

end Corso

namespace Corso

lemma sortMetas_perm (l : List EntryMetadata) : List.Perm (sortMetas l) l :=
  List.perm_insertionSort metaTimeLE l

lemma sortMetas_strict {db : List Manifest}
    (hdist : db.Pairwise (fun a b => a.modTime ≠ b.modTime)) :
    (sortMetas (db.map Manifest.meta)).Pairwise (fun a b => a.modTime < b.modTime) := by
  have hsorted : (sortMetas (db.map Manifest.meta)).Sorted metaTimeLE :=
    List.sorted_insertionSort metaTimeLE (db.map Manifest.meta)
  have hmapdist : (db.map Manifest.meta).Pairwise (fun a b => a.modTime ≠ b.modTime) :=
    hdist.map Manifest.meta (fun _ _ h => h)
  have hdist' : (sortMetas (db.map Manifest.meta)).Pairwise
      (fun a b => a.modTime ≠ b.modTime) :=
    ((sortMetas_perm (db.map Manifest.meta)).pairwise_iff (fun h => h.symm)).mpr hmapdist
  exact (hsorted.and hdist').imp (fun h => Nat.lt_of_le_of_ne h.1 h.2)

lemma sortMetas_ids_nodup {db : List Manifest} (hids : (db.map Manifest.id).Nodup) :
    ((sortMetas (db.map Manifest.meta)).map EntryMetadata.id).Nodup := by
  have hmm : (db.map Manifest.meta).map EntryMetadata.id = db.map Manifest.id := by
    rw [List.map_map]
    rfl
  have hperm : List.Perm ((sortMetas (db.map Manifest.meta)).map EntryMetadata.id)
      ((db.map Manifest.meta).map EntryMetadata.id) :=
    (sortMetas_perm (db.map Manifest.meta)).map EntryMetadata.id
  rw [hperm.nodup_iff, hmm]
  exact hids

lemma sortMetas_mem_wf {db : List Manifest} :
    ∀ e ∈ sortMetas (db.map Manifest.meta), ∃ m ∈ db, Manifest.meta m = e := by
  intro e he
  have : e ∈ db.map Manifest.meta := (sortMetas_perm (db.map Manifest.meta)).mem_iff.mp he
  rw [List.mem_map] at this
  obtain ⟨m, hm, hme⟩ := this
  exact ⟨m, hm, hme⟩

/-- Everything cut away below the drop point is strictly older than everything
kept, on a strictly ascending metadata list. -/
lemma sortMetas_cut {db : List Manifest}
    (hdist : db.Pairwise (fun a b => a.modTime ≠ b.modTime)) (n : Nat) :
    ∀ a ∈ (sortMetas (db.map Manifest.meta)).take n,
      ∀ b ∈ (sortMetas (db.map Manifest.meta)).drop n, a.modTime < b.modTime := by
  have h := sortMetas_strict hdist
  rw [← List.take_append_drop n (sortMetas (db.map Manifest.meta))] at h
  exact (List.pairwise_append.mp h).2.2

/-- Core of C2: properties of the per-pair selection run over the candidates
that survive the `drop n` cut, stated globally over the query result `db`. -/
lemma selectPrev_core {db : List Manifest} (hids : (db.map Manifest.id).Nodup)
    (hdist : db.Pairwise (fun a b => a.modTime ≠ b.modTime)) (n : Nat) :
    (manifestsSinceLastComplete (loadSnapshots db
        (((sortMetas (db.map Manifest.meta)).drop n).map EntryMetadata.id))).length ≤ 2 ∧
    (∀ m ∈ manifestsSinceLastComplete (loadSnapshots db
        (((sortMetas (db.map Manifest.meta)).drop n).map EntryMetadata.id)), m ∈ db) ∧
    (manifestsSinceLastComplete (loadSnapshots db
        (((sortMetas (db.map Manifest.meta)).drop n).map EntryMetadata.id))).countP
        (fun x => !(x.incompleteReason == "")) ≤ 1 ∧
    (manifestsSinceLastComplete (loadSnapshots db
        (((sortMetas (db.map Manifest.meta)).drop n).map EntryMetadata.id))).countP
        (fun x => x.incompleteReason == "") ≤ 1 ∧
    (∀ c ∈ manifestsSinceLastComplete (loadSnapshots db
        (((sortMetas (db.map Manifest.meta)).drop n).map EntryMetadata.id)),
      c.incompleteReason = "" →
      ∀ c' ∈ db, c'.incompleteReason = "" → c'.modTime ≤ c.modTime) ∧
    (∀ x ∈ manifestsSinceLastComplete (loadSnapshots db
        (((sortMetas (db.map Manifest.meta)).drop n).map EntryMetadata.id)),
      x.incompleteReason ≠ "" →
      (∀ x' ∈ db, x'.incompleteReason ≠ "" → x'.modTime ≤ x.modTime) ∧
      (∀ c ∈ db, c.incompleteReason = "" → c.modTime < x.modTime)) := by
  have hcands_wf : ∀ e ∈ (sortMetas (db.map Manifest.meta)).drop n,
      ∃ m ∈ db, Manifest.meta m = e :=
    fun e he => sortMetas_mem_wf e (List.mem_of_mem_drop he)
  have hcands_idnodup : (((sortMetas (db.map Manifest.meta)).drop n).map
      EntryMetadata.id).Nodup :=
    ((List.drop_sublist n (sortMetas (db.map Manifest.meta))).map
      EntryMetadata.id).nodup (sortMetas_ids_nodup hids)
  have hload_nodup := loadSnapshots_nodup hcands_wf hcands_idnodup
  have hload_sound := loadSnapshots_sound db
    (((sortMetas (db.map Manifest.meta)).drop n).map EntryMetadata.id)
  have hload_meta := loadSnapshots_meta_mem hids hcands_wf
  have hsymm : Symmetric (fun a b : Manifest => a.modTime ≠ b.modTime) :=
    fun _ _ h he => h he.symm
  have hload_dist : (loadSnapshots db
      (((sortMetas (db.map Manifest.meta)).drop n).map EntryMetadata.id)).Pairwise
      (fun a b => a.modTime ≠ b.modTime) := by
    refine hload_nodup.pairwise_of_forall_ne (fun a ha b hb hne => ?_)
    exact List.Pairwise.forall hsymm hdist (hload_sound a ha).1 (hload_sound b hb).1 hne
  obtain ⟨hlen, hsub, hinc, hcomp, hnewc, hnewi⟩ := msc_props _ hload_dist
  have hmemdb : ∀ m ∈ manifestsSinceLastComplete (loadSnapshots db
      (((sortMetas (db.map Manifest.meta)).drop n).map EntryMetadata.id)), m ∈ db :=
    fun m hm => (hload_sound m (hsub m hm)).1
  have hsplit : ∀ m' ∈ db, Manifest.meta m' ∈ (sortMetas (db.map Manifest.meta)).take n ∨
      Manifest.meta m' ∈ (sortMetas (db.map Manifest.meta)).drop n := by
    intro m' hm'
    have h1 : Manifest.meta m' ∈ sortMetas (db.map Manifest.meta) :=
      (sortMetas_perm (db.map Manifest.meta)).mem_iff.mpr
        (List.mem_map_of_mem Manifest.meta hm')
    rw [← List.take_append_drop n (sortMetas (db.map Manifest.meta))] at h1
    exact List.mem_append.mp h1
  have hcut := sortMetas_cut hdist n
  refine ⟨hlen, hmemdb, hinc, hcomp, ?_, ?_⟩
  · intro c hc hccomp c' hc' hc'comp
    have hcmeta : Manifest.meta c ∈ (sortMetas (db.map Manifest.meta)).drop n :=
      hload_meta c (hsub c hc)
    rcases hsplit c' hc' with h | h
    · exact Nat.le_of_lt (hcut _ h _ hcmeta)
    · exact hnewc c hc hccomp c' (loadSnapshots_complete hids _ c' hc' h) hc'comp
  · intro x hx hxinc
    have hxmeta : Manifest.meta x ∈ (sortMetas (db.map Manifest.meta)).drop n :=
      hload_meta x (hsub x hx)
    obtain ⟨hx1, hx2⟩ := hnewi x hx hxinc
    constructor
    · intro x' hx' hx'inc
      rcases hsplit x' hx' with h | h
      · exact Nat.le_of_lt (hcut _ h _ hxmeta)
      · exact hx1 x' (loadSnapshots_complete hids _ x' hx' h) hx'inc
    · intro c hc hccomp
      rcases hsplit c hc with h | h
      · exact hcut _ h _ hxmeta
      · exact hx2 c (loadSnapshots_complete hids _ c hc h) hccomp

end Corso

namespace Corso

lemma selectPrev_cases (fm : List (String × Manifest)) (db : List Manifest) :
    selectPrevManifests fm db = [] ∨
    ∃ n, selectPrevManifests fm db = manifestsSinceLastComplete (loadSnapshots db
      (((sortMetas (db.map Manifest.meta)).drop n).map EntryMetadata.id)) := by
  simp only [selectPrevManifests]
  split
  · exact Or.inl rfl
  · split
    · split
      · exact Or.inl rfl
      · exact Or.inr ⟨_ + 1, rfl⟩
    · refine Or.inr ⟨0, ?_⟩
      rw [List.drop_zero]

/-- C2: per (service-category, resource-owner) pair, the selection of
`fetchPrevManifests` returns at most two manifests — at most one complete and
at most one incomplete — where the complete one is the newest complete
manifest of the queried lineage and the incomplete one is the newest
incomplete manifest and is strictly newer than every complete manifest (so it
is returned only when strictly newer than the newest complete one, or when no
complete manifest exists).  Ids are assumed unique and modification times
distinct within the query result. -/
theorem manifest_selection_at_most_two
    (fm : List (String × Manifest)) (db res : List Manifest)
    (hids : (db.map Manifest.id).Nodup)
    (hdist : db.Pairwise (fun a b => a.modTime ≠ b.modTime))
    (hres : fetchPrevManifests fm (.ok db) = .ok res) :
    res.length ≤ 2 ∧
    (∀ m ∈ res, m ∈ db) ∧
    res.countP (fun x => !(x.incompleteReason == "")) ≤ 1 ∧
    res.countP (fun x => x.incompleteReason == "") ≤ 1 ∧
    (∀ c ∈ res, c.incompleteReason = "" →
      ∀ c' ∈ db, c'.incompleteReason = "" → c'.modTime ≤ c.modTime) ∧
    (∀ x ∈ res, x.incompleteReason ≠ "" →
      (∀ x' ∈ db, x'.incompleteReason ≠ "" → x'.modTime ≤ x.modTime) ∧
      (∀ c ∈ db, c.incompleteReason = "" → c.modTime < x.modTime)) := by
  have hsel : res = selectPrevManifests fm db := by
    unfold fetchPrevManifests at hres
    exact (Except.ok.inj hres).symm
  rcases selectPrev_cases fm db with hemp | ⟨n, hn⟩
  · rw [hsel, hemp]
    exact ⟨by simp, by simp, by simp, by simp, by simp, by simp⟩
  · rw [hsel, hn]
    exact selectPrev_core hids hdist n

/-- Concrete query result for the C2 witness: a complete manifest at time 1
and an incomplete one at time 2. -/
def c2db : List Manifest := [⟨"a", "", 1⟩, ⟨"b", "ir", 2⟩]

/-- The selection over `c2db`: the incomplete manifest (newer) plus the
complete one. -/
def c2res : List Manifest := [⟨"b", "ir", 2⟩, ⟨"a", "", 1⟩]

/-- Witness for C2 on a concrete lineage. -/
theorem manifest_selection_at_most_two_witness :
    c2res.length ≤ 2 ∧
    (∀ m ∈ c2res, m ∈ c2db) ∧
    c2res.countP (fun x => !(x.incompleteReason == "")) ≤ 1 ∧
    c2res.countP (fun x => x.incompleteReason == "") ≤ 1 ∧
    (∀ c ∈ c2res, c.incompleteReason = "" →
      ∀ c' ∈ c2db, c'.incompleteReason = "" → c'.modTime ≤ c.modTime) ∧
    (∀ x ∈ c2res, x.incompleteReason ≠ "" →
      (∀ x' ∈ c2db, x'.incompleteReason ≠ "" → x'.modTime ≤ x.modTime) ∧
      (∀ c ∈ c2db, c.incompleteReason = "" → c.modTime < x.modTime)) :=
  manifest_selection_at_most_two [] c2db c2res (by decide) (by decide) rfl

end Corso

namespace Corso

/-! ## Backup Bases

Modelled from the spec: backup_bases.go is not among the provided sources
(only backup_bases_test.go is).  The data model follows spec section 3 and
the algorithms follow section 4.3, cross-checked against TestMinBackupVersion,
TestMergeBackupBases and TestFixupAndVerify. -/

structure Reason where
  resourceOwner : String
  service : String
  category : String
deriving DecidableEq, Repr

structure ManifestEntry where
  manifest : Manifest
  reasons : List Reason
deriving DecidableEq, Repr

structure Backup where
  id : String
  snapshotID : String
  streamStoreID : String
  detailsID : String
  version : Int
deriving DecidableEq, Repr

structure BackupEntry where
  backup : Backup
  reasons : List Reason
deriving DecidableEq, Repr

structure backupBases where
  backups : List BackupEntry
  mergeBases : List ManifestEntry
  assistBases : List ManifestEntry
deriving DecidableEq, Repr

/-- version.NoBackup, the "no backup tracked" sentinel. -/
def NoBackup : Int := -1

/-- Modelled from the spec: MinBackupVersion returns the minimum format
version across all tracked backups, the NoBackup sentinel on an empty set,
and tolerates a nil receiver (`none`). -/
def MinBackupVersion : Option backupBases → Int
  | none => NoBackup
  | some bb =>
    match bb.backups with
    | [] => NoBackup
    | b :: bs => bs.foldl (fun acc e => min acc e.backup.version) b.backup.version

lemma foldl_min_props (l : List BackupEntry) (a : Int) :
    (l.foldl (fun acc e => min acc e.backup.version) a = a ∨
     ∃ b ∈ l, l.foldl (fun acc e => min acc e.backup.version) a = b.backup.version) ∧
    l.foldl (fun acc e => min acc e.backup.version) a ≤ a ∧
    ∀ b ∈ l, l.foldl (fun acc e => min acc e.backup.version) a ≤ b.backup.version := by
  induction l generalizing a with
  | nil =>
    refine ⟨Or.inl rfl, le_refl a, ?_⟩
    intro b hb
    cases hb
  | cons c cs ih =>
    obtain ⟨hmem, hle, hall⟩ := ih (min a c.backup.version)
    simp only [List.foldl_cons]
    refine ⟨?_, ?_, ?_⟩
    · rcases hmem with h | ⟨b, hb, hbe⟩
      · rcases min_choice a c.backup.version with hm | hm
        · exact Or.inl (h.trans hm)
        · exact Or.inr ⟨c, List.mem_cons_self c cs, h.trans hm⟩
      · exact Or.inr ⟨b, List.mem_cons_of_mem c hb, hbe⟩
    · exact hle.trans (min_le_left a c.backup.version)
    · intro b hb
      rcases List.mem_cons.mp hb with rfl | hb'
      · exact hle.trans (min_le_right a b.backup.version)
      · exact hall b hb'

/-- C10: MinBackupVersion on a nil pointer returns the NoBackup sentinel,
exactly as on an empty backup set; on a non-empty set it returns the minimum
tracked version (attained and a lower bound, hence independent of entry
order), and permuting the backups never changes the answer. -/
theorem minBackupVersion_spec :
    MinBackupVersion none = NoBackup ∧
    (∀ ms as, MinBackupVersion (some ⟨[], ms, as⟩) = NoBackup) ∧
    (∀ bb : backupBases, bb.backups ≠ [] →
      (∃ b ∈ bb.backups, MinBackupVersion (some bb) = b.backup.version) ∧
      (∀ b ∈ bb.backups, MinBackupVersion (some bb) ≤ b.backup.version)) ∧
    (∀ bb1 bb2 : backupBases, List.Perm bb1.backups bb2.backups →
      MinBackupVersion (some bb1) = MinBackupVersion (some bb2)) := by
  have heq : ∀ bb : backupBases, MinBackupVersion (some bb) =
      (match bb.backups with
        | [] => NoBackup
        | b :: bs => bs.foldl (fun acc e => min acc e.backup.version) b.backup.version) :=
    fun _ => rfl
  have hchar : ∀ bb : backupBases, bb.backups ≠ [] →
      (∃ b ∈ bb.backups, MinBackupVersion (some bb) = b.backup.version) ∧
      (∀ b ∈ bb.backups, MinBackupVersion (some bb) ≤ b.backup.version) := by
    intro bb hne
    have hval := heq bb
    cases hbs : bb.backups with
    | nil => exact absurd hbs hne
    | cons c cs =>
      rw [hbs] at hval
      obtain ⟨hmem, hle, hall⟩ := foldl_min_props cs c.backup.version
      constructor
      · rcases hmem with h | ⟨b, hb, hbe⟩
        · exact ⟨c, List.mem_cons_self c cs, by rw [hval]; exact h⟩
        · exact ⟨b, List.mem_cons_of_mem c hb, by rw [hval]; exact hbe⟩
      · intro b hb
        rcases List.mem_cons.mp hb with rfl | hb'
        · rw [hval]; exact hle
        · rw [hval]; exact hall b hb'
  refine ⟨rfl, fun ms as => rfl, hchar, ?_⟩
  intro bb1 bb2 hperm
  cases h1 : bb1.backups with
  | nil =>
    have h2 : bb2.backups = [] := by
      rw [h1] at hperm
      exact hperm.symm.eq_nil
    rw [heq bb1, heq bb2, h1, h2]
  | cons c cs =>
    have hne1 : bb1.backups ≠ [] := by rw [h1]; exact List.cons_ne_nil c cs
    have hne2 : bb2.backups ≠ [] := by
      intro h2
      rw [h1, h2] at hperm
      exact List.cons_ne_nil c cs hperm.eq_nil
    obtain ⟨⟨b1, hb1, he1⟩, hlb1⟩ := hchar bb1 hne1
    obtain ⟨⟨b2, hb2, he2⟩, hlb2⟩ := hchar bb2 hne2
    have h12 : MinBackupVersion (some bb1) ≤ MinBackupVersion (some bb2) := by
      rw [he2]
      exact hlb1 b2 (hperm.mem_iff.mpr hb2)
    have h21 : MinBackupVersion (some bb2) ≤ MinBackupVersion (some bb1) := by
      rw [he1]
      exact hlb2 b1 (hperm.mem_iff.mp hb1)
    exact le_antisymm h12 h21

/-- The backups of TestMinBackupVersion's "Unsorted Backups" case. -/
def c10bb : backupBases :=
  ⟨[⟨⟨"", "", "", "", 4⟩, []⟩, ⟨⟨"", "", "", "", 0⟩, []⟩, ⟨⟨"", "", "", "", 2⟩, []⟩], [], []⟩

/-- Witness for C10 at the unsorted three-backup structure. -/
theorem minBackupVersion_spec_witness :
    (∃ b ∈ c10bb.backups, MinBackupVersion (some c10bb) = b.backup.version) ∧
    (∀ b ∈ c10bb.backups, MinBackupVersion (some c10bb) ≤ b.backup.version) :=
  minBackupVersion_spec.2.2.1 c10bb (by decide)

end Corso

namespace Corso

/-- Modelled from the spec: does backup entry `b` vouch for merge base `m`?
It must reference the same snapshot, carry a non-empty snapshot id, and keep a
non-empty detail-blob reference (StreamStoreID, with the legacy DetailsID
field accepted as fallback). -/
def backupMatchesMan (b : BackupEntry) (m : ManifestEntry) : Bool :=
  b.backup.snapshotID == m.manifest.id && !(b.backup.snapshotID == "") &&
    (!(b.backup.streamStoreID == "") || !(b.backup.detailsID == ""))

def reasonsNodup : List Reason → Bool
  | [] => true
  | r :: rs => !(rs.contains r) && reasonsNodup rs

/-- How many entries of `L` carry reason `r`. -/
def reasonEntryCount (L : List ManifestEntry) (r : Reason) : Nat :=
  L.countP (fun e => e.reasons.contains r)

/-- Modelled from the spec: the per-entry checks of fixupAndVerify — a
complete manifest, a matching backup with a detail-blob reference, no
duplicated Reason inside the entry, and no Reason shared with any other
mergeBases entry. -/
def mergeEntryValid (bs : backupBases) (m : ManifestEntry) : Bool :=
  (m.manifest.incompleteReason == "") &&
  bs.backups.any (fun b => backupMatchesMan b m) &&
  reasonsNodup m.reasons &&
  m.reasons.all (fun r => reasonEntryCount bs.mergeBases r == 1)

/-- Modelled from the spec: fixupAndVerify drops every invalid entry from
backups/mergeBases (and from assistBases when the dropped entry lived there),
keeps every valid one, and never errors (it is a total function). -/
def fixupAndVerify (bs : backupBases) : backupBases :=
  { backups := bs.backups.filter (fun b =>
      (bs.mergeBases.filter (fun m => mergeEntryValid bs m)).any
        (fun m => backupMatchesMan b m)),
    mergeBases := bs.mergeBases.filter (fun m => mergeEntryValid bs m),
    assistBases := bs.assistBases.filter (fun a =>
      !(((bs.mergeBases.filter (fun m => !(mergeEntryValid bs m))).map
          (fun m => m.manifest.id)).contains a.manifest.id)) }

lemma countP_two_of_mem {α : Type} (p : α → Bool) {l : List α} {a b : α}
    (ha : a ∈ l) (hb : b ∈ l) (hab : a ≠ b) (hpa : p a = true) (hpb : p b = true) :
    2 ≤ l.countP p := by
  obtain ⟨s, t, rfl⟩ := List.append_of_mem ha
  rw [List.countP_append, List.countP_cons, if_pos hpa]
  have hb' : b ∈ s ∨ b ∈ t := by
    rcases List.mem_append.mp hb with h | h
    · exact Or.inl h
    · rcases List.mem_cons.mp h with rfl | h
      · exact absurd rfl hab.symm
      · exact Or.inr h
  rcases hb' with h | h
  · have := List.countP_pos_iff.mpr ⟨b, h, hpb⟩
    omega
  · have := List.countP_pos_iff.mpr ⟨b, h, hpb⟩
    omega

lemma shared_reason_invalid {bs : backupBases} {m1 m2 : ManifestEntry} {r : Reason}
    (h1 : m1 ∈ bs.mergeBases) (h2 : m2 ∈ bs.mergeBases) (hne : m1 ≠ m2)
    (hr1 : r ∈ m1.reasons) (hr2 : r ∈ m2.reasons) :
    mergeEntryValid bs m1 = false := by
  have hcount : 2 ≤ reasonEntryCount bs.mergeBases r := by
    unfold reasonEntryCount
    exact countP_two_of_mem _ h1 h2 hne (by simpa using hr1) (by simpa using hr2)
  have hlast : m1.reasons.all (fun r => reasonEntryCount bs.mergeBases r == 1) = false := by
    rw [List.all_eq_false]
    refine ⟨r, hr1, ?_⟩
    simp only [beq_iff_eq]
    omega
  unfold mergeEntryValid
  rw [hlast, Bool.and_false]

/-- C3: fixupAndVerify (a total function: it cannot error) keeps a mergeBases
entry iff it passes every check — complete manifest, matching backup with the
same snapshot id and a non-empty StreamStoreID or legacy DetailsID, no
internal duplicate Reason, and no Reason shared with another entry; a backups
entry is kept iff it vouches for some surviving valid merge base (so the
backups of invalid entries are removed and those of valid entries kept); and
in particular two distinct entries sharing one Reason are both removed. -/
theorem fixup_drops_invalid_keeps_valid (bs : backupBases) :
    (∀ m, m ∈ (fixupAndVerify bs).mergeBases ↔
      m ∈ bs.mergeBases ∧ mergeEntryValid bs m = true) ∧
    (∀ b, b ∈ (fixupAndVerify bs).backups ↔
      b ∈ bs.backups ∧ ∃ m ∈ bs.mergeBases,
        mergeEntryValid bs m = true ∧ backupMatchesMan b m = true) ∧
    (∀ m1 m2 r, m1 ∈ bs.mergeBases → m2 ∈ bs.mergeBases → m1 ≠ m2 →
      r ∈ m1.reasons → r ∈ m2.reasons →
      m1 ∉ (fixupAndVerify bs).mergeBases ∧ m2 ∉ (fixupAndVerify bs).mergeBases) := by
  have hmem : ∀ m, m ∈ (fixupAndVerify bs).mergeBases ↔
      m ∈ bs.mergeBases ∧ mergeEntryValid bs m = true := by
    intro m
    unfold fixupAndVerify
    exact List.mem_filter
  have hback : ∀ b, b ∈ (fixupAndVerify bs).backups ↔
      b ∈ bs.backups ∧ ∃ m ∈ bs.mergeBases,
        mergeEntryValid bs m = true ∧ backupMatchesMan b m = true := by
    intro b
    unfold fixupAndVerify
    rw [List.mem_filter]
    constructor
    · rintro ⟨hb, hany⟩
      rw [List.any_eq_true] at hany
      obtain ⟨m, hm, hmatch⟩ := hany
      obtain ⟨hm', hvalid⟩ := List.mem_filter.mp hm
      exact ⟨hb, m, hm', hvalid, hmatch⟩
    · rintro ⟨hb, m, hm, hvalid, hmatch⟩
      refine ⟨hb, ?_⟩
      rw [List.any_eq_true]
      exact ⟨m, List.mem_filter.mpr ⟨hm, hvalid⟩, hmatch⟩
  refine ⟨hmem, hback, ?_⟩
  intro m1 m2 r h1 h2 hne hr1 hr2
  constructor
  · intro hmem1
    have := (hmem m1).mp hmem1
    rw [shared_reason_invalid h1 h2 hne hr1 hr2] at this
    exact Bool.false_ne_true this.2
  · intro hmem2
    have := (hmem m2).mp hmem2
    rw [shared_reason_invalid h2 h1 (fun h => hne h.symm) hr2 hr1] at this
    exact Bool.false_ne_true this.2

/-- Scenario B data: two merge-base entries sharing an identical Reason. -/
def c3reason : Reason := ⟨"ro", "exchange", "email"⟩

def c3m1 : ManifestEntry := ⟨⟨"id1", "", 0⟩, [c3reason]⟩

def c3m2 : ManifestEntry := ⟨⟨"id2", "", 0⟩, [c3reason]⟩

def c3bs : backupBases :=
  ⟨[⟨⟨"bid1", "id1", "ssid1", "", 0⟩, []⟩, ⟨⟨"bid2", "id2", "ssid2", "", 0⟩, []⟩],
   [c3m1, c3m2], [c3m1, c3m2]⟩

/-- The backup entry vouching for `c3m1`. -/
def c3b1 : BackupEntry := ⟨⟨"bid1", "id1", "ssid1", "", 0⟩, []⟩

/-- Witness for C3: with an identical Reason on two entries, fixupAndVerify
removes both, and the backup entry vouching only for them is removed from
backups as well. -/
theorem fixup_drops_invalid_keeps_valid_witness :
    c3m1 ∉ (fixupAndVerify c3bs).mergeBases ∧
    c3m2 ∉ (fixupAndVerify c3bs).mergeBases ∧
    c3b1 ∉ (fixupAndVerify c3bs).backups := by
  have h := fixup_drops_invalid_keeps_valid c3bs
  refine ⟨(h.2.2 c3m1 c3m2 c3reason (by decide) (by decide) (by decide) (by decide)
      (by decide)).1,
    (h.2.2 c3m1 c3m2 c3reason (by decide) (by decide) (by decide) (by decide)
      (by decide)).2, ?_⟩
  intro hb
  obtain ⟨-, m, hm, hvalid, -⟩ := (h.2.1 c3b1).mp hb
  have hm2 : m ∈ [c3m1, c3m2] := hm
  rcases List.mem_cons.mp hm2 with rfl | hm'
  · exact absurd hvalid (by decide)
  · rcases List.mem_cons.mp hm' with rfl | hm''
    · exact absurd hvalid (by decide)
    · cases hm''

end Corso

namespace Corso

/-! ### MergeBackupBases (modelled from the spec, section 4.3) -/

/-- Does entry `m` carry a reason with dedup key `κ`? -/
def entryHasKey (k : Reason → String) (m : ManifestEntry) (κ : String) : Bool :=
  m.reasons.any (fun r => k r == κ)

/-- All dedup keys covered by the entries of `L`. -/
def coveredKeys (k : Reason → String) (L : List ManifestEntry) : List String :=
  L.flatMap (fun m => m.reasons.map k)

/-- Strip from `m` every reason whose key is already covered by a
higher-priority entry. -/
def stripCovered (k : Reason → String) (covered : List String) (m : ManifestEntry) :
    ManifestEntry :=
  { m with reasons := m.reasons.filter (fun r => !(covered.contains (k r))) }

/-- Modelled from the spec: adopt `other`'s mergeBases entries only for keys
`self` does not already cover; entries whose reasons are all stripped are
dropped. -/
def adoptMergeEntries (k : Reason → String) (selfKeys : List String)
    (others : List ManifestEntry) : List ManifestEntry :=
  (others.map (stripCovered k selfKeys)).filter (fun m => !m.reasons.isEmpty)

/-- Adopt the backups entries matching the adopted merge bases, their reason
sets reduced the same way. -/
def adoptBackups (otherBackups : List BackupEntry) (adopted : List ManifestEntry) :
    List BackupEntry :=
  adopted.filterMap (fun m =>
    (otherBackups.find? (fun b => b.backup.snapshotID == m.manifest.id)).map
      (fun b => { b with reasons := m.reasons }))

def mergeIDs (L : List ManifestEntry) : List String := L.map (fun m => m.manifest.id)

/-- The assist entries of `bs` that are not merge bases (by manifest id). -/
def assistOnly (bs : backupBases) : List ManifestEntry :=
  bs.assistBases.filter (fun a => !((mergeIDs bs.mergeBases).contains a.manifest.id))

/-- Candidate `a` strictly beats `b` in the per-key assist competition: a complete
manifest is never displaced by an incomplete one, otherwise the newest wins;
a tie keeps the earlier candidate (self's side comes first). -/
def candBeats (a b : ManifestEntry × Bool) : Bool :=
  ((a.1.manifest.incompleteReason == "") && !(b.1.manifest.incompleteReason == "")) ||
  (((a.1.manifest.incompleteReason == "") == (b.1.manifest.incompleteReason == "")) &&
    decide (b.1.manifest.modTime < a.1.manifest.modTime))

/-- One step of the per-key competition fold. -/
def pickBetter (best : Option (ManifestEntry × Bool)) (c : ManifestEntry × Bool) :
    Option (ManifestEntry × Bool) :=
  match best with
  | none => some c
  | some b => if candBeats c b then some c else some b

/-- The winning candidate for key `κ` among the tagged assist candidates. -/
def winnerForKey (k : Reason → String) (cands : List (ManifestEntry × Bool))
    (κ : String) : Option (ManifestEntry × Bool) :=
  (cands.filter (fun c => entryHasKey k c.1 κ)).foldl pickBetter none

/-- The reasons candidate `c` wins, and the resulting reduced entry (none
when it wins nothing). -/
def assistEntryResult (k : Reason → String) (cands : List (ManifestEntry × Bool))
    (c : ManifestEntry × Bool) : Option ManifestEntry :=
  let rs := c.1.reasons.filter (fun r => winnerForKey k cands (k r) == some c)
  if rs.isEmpty then none else some { c.1 with reasons := rs }

/-- Modelled from the spec: merge the assist-only entries of both sides —
per reason key the newest wins (complete never displaced by incomplete,
self preferred on ties), each entry keeping exactly the keys it wins. -/
def assistMergeResult (k : Reason → String) (selfA otherA : List ManifestEntry) :
    List ManifestEntry :=
  (selfA.map (fun m => (m, true)) ++ otherA.map (fun m => (m, false))).filterMap
    (assistEntryResult k
      (selfA.map (fun m => (m, true)) ++ otherA.map (fun m => (m, false))))

/-- Modelled from the spec: MergeBackupBases.  Per reason key, `self`'s
mergeBases entry is preferred; otherwise `other`'s entry (and its matching
backups entry) is adopted with already-covered reasons stripped.  The merged
assistBases are the merged mergeBases plus the per-key winners among the
assist-only entries of both sides. -/
def MergeBackupBases (k : Reason → String) (bb other : backupBases) : backupBases :=
  let adopted := adoptMergeEntries k (coveredKeys k bb.mergeBases) other.mergeBases
  { backups := bb.backups ++ adoptBackups other.backups adopted,
    mergeBases := bb.mergeBases ++ adopted,
    assistBases := (bb.mergeBases ++ adopted) ++
      assistMergeResult k (assistOnly bb) (assistOnly other) }

end Corso

namespace Corso

lemma contains_true_iff {α : Type} [BEq α] [LawfulBEq α] (l : List α) (a : α) :
    l.contains a = true ↔ a ∈ l := by
  rw [List.contains_iff_exists_mem_beq]
  constructor
  · rintro ⟨x, hx, he⟩
    rw [eq_of_beq he]
    exact hx
  · intro h
    exact ⟨a, h, by simp⟩

lemma map_id_on {α : Type} (f : α → α) :
    ∀ (l : List α), (∀ a ∈ l, f a = a) → l.map f = l
  | [], _ => rfl
  | a :: l, h => by
    rw [List.map_cons, h a (List.mem_cons_self a l),
      map_id_on f l (fun b hb => h b (List.mem_cons_of_mem a hb))]

lemma filterMap_id_on {α : Type} (f : α → Option α) :
    ∀ (l : List α), (∀ a ∈ l, f a = some a) → l.filterMap f = l
  | [], _ => rfl
  | a :: l, h => by
    have hrec := filterMap_id_on f l (fun b hb => h b (List.mem_cons_of_mem a hb))
    rw [List.filterMap_cons, h a (List.mem_cons_self a l)]
    show a :: l.filterMap f = a :: l
    rw [hrec]

lemma stripCovered_id {k : Reason → String} {covered : List String} {m : ManifestEntry}
    (h : ∀ r ∈ m.reasons, covered.contains (k r) = false) :
    stripCovered k covered m = m := by
  unfold stripCovered
  have hf : m.reasons.filter (fun r => !(covered.contains (k r))) = m.reasons := by
    rw [List.filter_eq_self]
    intro r hr
    rw [h r hr]
    rfl
  rw [hf]

lemma adoptMergeEntries_self (k : Reason → String) (L : List ManifestEntry) :
    adoptMergeEntries k (coveredKeys k L) L = [] := by
  unfold adoptMergeEntries
  rw [List.filter_eq_nil_iff]
  intro m hm
  rw [List.mem_map] at hm
  obtain ⟨m0, hm0, rfl⟩ := hm
  have hz : (stripCovered k (coveredKeys k L) m0).reasons = [] := by
    show m0.reasons.filter (fun r => !((coveredKeys k L).contains (k r))) = []
    rw [List.filter_eq_nil_iff]
    intro r hr
    have hmem : k r ∈ coveredKeys k L := by
      unfold coveredKeys
      rw [List.mem_flatMap]
      exact ⟨m0, hm0, List.mem_map_of_mem k hr⟩
    rw [(contains_true_iff _ _).mpr hmem]
    simp
  rw [hz]
  simp

lemma adoptMergeEntries_disjoint {k : Reason → String} {covered : List String}
    {others : List ManifestEntry}
    (hfree : ∀ m ∈ others, ∀ r ∈ m.reasons, covered.contains (k r) = false)
    (hne : ∀ m ∈ others, m.reasons ≠ []) :
    adoptMergeEntries k covered others = others := by
  unfold adoptMergeEntries
  rw [map_id_on _ others (fun m hm => stripCovered_id (hfree m hm))]
  rw [List.filter_eq_self]
  intro m hm
  simp [hne m hm]

lemma candBeats_same (m : ManifestEntry) (b1 b2 : Bool) :
    candBeats (m, b1) (m, b2) = false := by
  simp [candBeats]

lemma winner_foldl_keep (x : ManifestEntry × Bool) :
    ∀ (l : List (ManifestEntry × Bool)), (∀ c ∈ l, candBeats c x = false) →
      l.foldl pickBetter (some x) = some x
  | [], _ => rfl
  | c :: cs, h => by
    rw [List.foldl_cons]
    have hstep : pickBetter (some x) c = some x := by
      show (if candBeats c x = true then some c else some x) = some x
      rw [if_neg (by rw [h c (List.mem_cons_self c cs)]; exact Bool.false_ne_true)]
    rw [hstep]
    exact winner_foldl_keep x cs (fun c' hc' => h c' (List.mem_cons_of_mem c hc'))

lemma winnerForKey_self_self {k : Reason → String} {S : List ManifestEntry}
    (hkeys : ∀ m1 ∈ S, ∀ m2 ∈ S, m1 ≠ m2 →
      ∀ r1 ∈ m1.reasons, ∀ r2 ∈ m2.reasons, k r1 ≠ k r2)
    {m : ManifestEntry} (hm : m ∈ S) {r : Reason} (hr : r ∈ m.reasons) :
    winnerForKey k (S.map (fun x => (x, true)) ++ S.map (fun x => (x, false)))
      (k r) = some (m, true) := by
  have hone : ∀ c ∈ (S.map (fun x => (x, true)) ++ S.map (fun x => (x, false))).filter
      (fun c => entryHasKey k c.1 (k r)), c.1 = m := by
    intro c hc
    obtain ⟨hcc, hck⟩ := List.mem_filter.mp hc
    have hc1 : c.1 ∈ S := by
      rcases List.mem_append.mp hcc with h | h <;>
        · rw [List.mem_map] at h
          obtain ⟨x, hx, rfl⟩ := h
          exact hx
    by_contra hne
    unfold entryHasKey at hck
    rw [List.any_eq_true] at hck
    obtain ⟨r', hr', hbeq⟩ := hck
    exact hkeys c.1 hc1 m hm hne r' hr' r hr (by simpa using hbeq)
  have htag : ∀ c ∈ (S.map (fun x => (x, true))).filter (fun c => entryHasKey k c.1 (k r)),
      c = (m, true) := by
    intro c hc
    have hcm : c.1 = m := by
      refine hone c ?_
      rw [List.filter_append]
      exact List.mem_append_left _ hc
    have hct : c.2 = true := by
      obtain ⟨hcc, -⟩ := List.mem_filter.mp hc
      rw [List.mem_map] at hcc
      obtain ⟨x, hx, rfl⟩ := hcc
      rfl
    obtain ⟨c1, c2⟩ := c
    simp only at hcm hct
    rw [hcm, hct]
  have htag2 : ∀ c ∈ (S.map (fun x => (x, false))).filter (fun c => entryHasKey k c.1 (k r)),
      c = (m, false) := by
    intro c hc
    have hcm : c.1 = m := by
      refine hone c ?_
      rw [List.filter_append]
      exact List.mem_append_right _ hc
    have hct : c.2 = false := by
      obtain ⟨hcc, -⟩ := List.mem_filter.mp hc
      rw [List.mem_map] at hcc
      obtain ⟨x, hx, rfl⟩ := hcc
      rfl
    obtain ⟨c1, c2⟩ := c
    simp only at hcm hct
    rw [hcm, hct]
  have hmm : (m, true) ∈ (S.map (fun x => (x, true))).filter
      (fun c => entryHasKey k c.1 (k r)) := by
    rw [List.mem_filter]
    refine ⟨List.mem_map_of_mem _ hm, ?_⟩
    unfold entryHasKey
    rw [List.any_eq_true]
    exact ⟨r, hr, by simp⟩
  have hne1 : (S.map (fun x => (x, true))).filter (fun c => entryHasKey k c.1 (k r)) ≠ [] :=
    fun h => by rw [h] at hmm; cases hmm
  obtain ⟨h0, t0, ht0⟩ := List.exists_cons_of_ne_nil hne1
  have hh0 : h0 = (m, true) := htag h0 (by rw [ht0]; exact List.mem_cons_self _ _)
  unfold winnerForKey
  rw [List.filter_append, ht0, hh0, List.cons_append, List.foldl_cons]
  show (t0 ++ (S.map (fun x => (x, false))).filter
      (fun c => entryHasKey k c.1 (k r))).foldl pickBetter (some (m, true)) = some (m, true)
  apply winner_foldl_keep
  intro c hc
  rcases List.mem_append.mp hc with h | h
  · have hcv : c = (m, true) := htag c (by rw [ht0]; exact List.mem_cons_of_mem _ h)
    rw [hcv]
    exact candBeats_same m true true
  · have hcv : c = (m, false) := htag2 c h
    rw [hcv]
    exact candBeats_same m false true

end Corso

namespace Corso

lemma assistEntryResult_eq (k : Reason → String) (cands : List (ManifestEntry × Bool))
    (m : ManifestEntry) (b : Bool) :
    assistEntryResult k cands (m, b) =
      if (m.reasons.filter (fun r => winnerForKey k cands (k r) == some (m, b))).isEmpty
      then none
      else some ⟨m.manifest,
        m.reasons.filter (fun r => winnerForKey k cands (k r) == some (m, b))⟩ := rfl

lemma assistMergeResult_self (k : Reason → String) (S : List ManifestEntry)
    (hkeys : ∀ m1 ∈ S, ∀ m2 ∈ S, m1 ≠ m2 →
      ∀ r1 ∈ m1.reasons, ∀ r2 ∈ m2.reasons, k r1 ≠ k r2)
    (hne : ∀ m ∈ S, m.reasons ≠ []) :
    assistMergeResult k S S = S := by
  unfold assistMergeResult
  rw [List.filterMap_append, List.filterMap_map, List.filterMap_map]
  have h1 : S.filterMap
      (assistEntryResult k (S.map (fun m => (m, true)) ++ S.map (fun m => (m, false))) ∘
        (fun m => (m, true))) = S := by
    apply filterMap_id_on
    intro m hm
    rw [Function.comp_apply, assistEntryResult_eq]
    have hfeq : m.reasons.filter (fun r =>
        winnerForKey k (S.map (fun m => (m, true)) ++ S.map (fun m => (m, false)))
          (k r) == some (m, true)) = m.reasons := by
      rw [List.filter_eq_self]
      intro r hr
      rw [winnerForKey_self_self hkeys hm hr]
      simp
    rw [hfeq, if_neg (by simp only [List.isEmpty_eq_true]; exact hne m hm)]
  have h2 : S.filterMap
      (assistEntryResult k (S.map (fun m => (m, true)) ++ S.map (fun m => (m, false))) ∘
        (fun m => (m, false))) = [] := by
    rw [List.filterMap_eq_nil_iff]
    intro m hm
    rw [Function.comp_apply, assistEntryResult_eq]
    have hfeq : m.reasons.filter (fun r =>
        winnerForKey k (S.map (fun m => (m, true)) ++ S.map (fun m => (m, false)))
          (k r) == some (m, false)) = [] := by
      rw [List.filter_eq_nil_iff]
      intro r hr
      rw [winnerForKey_self_self hkeys hm hr]
      simp
    rw [hfeq]
    rfl
  rw [h1, h2, List.append_nil]

end Corso

namespace Corso

lemma MergeBackupBases_backups (k : Reason → String) (bb other : backupBases) :
    (MergeBackupBases k bb other).backups =
      bb.backups ++ adoptBackups other.backups
        (adoptMergeEntries k (coveredKeys k bb.mergeBases) other.mergeBases) := rfl

lemma MergeBackupBases_mergeBases (k : Reason → String) (bb other : backupBases) :
    (MergeBackupBases k bb other).mergeBases =
      bb.mergeBases ++ adoptMergeEntries k (coveredKeys k bb.mergeBases) other.mergeBases := rfl

lemma MergeBackupBases_assistBases (k : Reason → String) (bb other : backupBases) :
    (MergeBackupBases k bb other).assistBases =
      (bb.mergeBases ++ adoptMergeEntries k (coveredKeys k bb.mergeBases) other.mergeBases) ++
        assistMergeResult k (assistOnly bb) (assistOnly other) := rfl

/-- C5: (i) MergeBackupBases(A, A) is equivalent to A (backups and mergeBases
verbatim, assistBases up to membership) for a well-formed A; (ii) for A and B
with disjoint reason keys the merged mergeBases are exactly A's followed by
B's with reasons untouched, and when no reason is duplicated within either
side none is duplicated in the result; (iii) per reason key self's entry is
preferred — self entries always survive — and an adopted entry carries no
reason whose key self already covers. -/
theorem merge_backup_bases_spec (k : Reason → String) :
    (∀ A : backupBases,
      (∀ m ∈ A.mergeBases, m ∈ A.assistBases) →
      (∀ a ∈ A.assistBases, a.manifest.id ∈ mergeIDs A.mergeBases → a ∈ A.mergeBases) →
      (∀ m1 ∈ assistOnly A, ∀ m2 ∈ assistOnly A, m1 ≠ m2 →
        ∀ r1 ∈ m1.reasons, ∀ r2 ∈ m2.reasons, k r1 ≠ k r2) →
      (∀ m ∈ assistOnly A, m.reasons ≠ []) →
      (MergeBackupBases k A A).backups = A.backups ∧
      (MergeBackupBases k A A).mergeBases = A.mergeBases ∧
      (∀ x, x ∈ (MergeBackupBases k A A).assistBases ↔ x ∈ A.assistBases)) ∧
    (∀ A B : backupBases,
      (∀ m1 ∈ A.mergeBases, ∀ r1 ∈ m1.reasons, ∀ m2 ∈ B.mergeBases, ∀ r2 ∈ m2.reasons,
        k r1 ≠ k r2) →
      (∀ m ∈ B.mergeBases, m.reasons ≠ []) →
      (MergeBackupBases k A B).mergeBases = A.mergeBases ++ B.mergeBases ∧
      ((∀ r, reasonEntryCount A.mergeBases r ≤ 1) →
       (∀ r, reasonEntryCount B.mergeBases r ≤ 1) →
       ∀ r, reasonEntryCount (MergeBackupBases k A B).mergeBases r ≤ 1)) ∧
    (∀ A B : backupBases,
      (∀ m ∈ A.mergeBases, m ∈ (MergeBackupBases k A B).mergeBases) ∧
      (∀ m ∈ (MergeBackupBases k A B).mergeBases, m ∉ A.mergeBases →
        ∀ r ∈ m.reasons, ¬ ((coveredKeys k A.mergeBases).contains (k r) = true))) := by
  refine ⟨?_, ?_, ?_⟩
  · intro A h1 h2 h3 h4
    have hadopt := adoptMergeEntries_self k A.mergeBases
    refine ⟨?_, ?_, ?_⟩
    · rw [MergeBackupBases_backups, hadopt]
      show A.backups ++ [] = A.backups
      exact List.append_nil _
    · rw [MergeBackupBases_mergeBases, hadopt, List.append_nil]
    · intro x
      rw [MergeBackupBases_assistBases, hadopt, List.append_nil,
        assistMergeResult_self k (assistOnly A) h3 h4]
      constructor
      · intro hx
        rcases List.mem_append.mp hx with h | h
        · exact h1 x h
        · unfold assistOnly at h
          exact List.mem_of_mem_filter h
      · intro hx
        by_cases hid : (mergeIDs A.mergeBases).contains x.manifest.id = true
        · exact List.mem_append_left _ (h2 x hx ((contains_true_iff _ _).mp hid))
        · refine List.mem_append_right _ ?_
          unfold assistOnly
          refine List.mem_filter.mpr ⟨hx, ?_⟩
          have hfd : (mergeIDs A.mergeBases).contains x.manifest.id = false := by
            cases hb : (mergeIDs A.mergeBases).contains x.manifest.id
            · rfl
            · exact absurd hb hid
          rw [hfd]
          rfl
  · intro A B hd hBne
    have hfree : ∀ m ∈ B.mergeBases, ∀ r ∈ m.reasons,
        (coveredKeys k A.mergeBases).contains (k r) = false := by
      intro m hm r hr
      cases hb : (coveredKeys k A.mergeBases).contains (k r)
      · rfl
      · exfalso
        have hmem := (contains_true_iff _ _).mp hb
        unfold coveredKeys at hmem
        rw [List.mem_flatMap] at hmem
        obtain ⟨m1, hm1, hk1⟩ := hmem
        rw [List.mem_map] at hk1
        obtain ⟨r1, hr1, hk1e⟩ := hk1
        exact hd m1 hm1 r1 hr1 m hm r hr hk1e
    have hcons : (MergeBackupBases k A B).mergeBases = A.mergeBases ++ B.mergeBases := by
      rw [MergeBackupBases_mergeBases, adoptMergeEntries_disjoint hfree hBne]
    refine ⟨hcons, ?_⟩
    intro huA huB r
    rw [hcons]
    unfold reasonEntryCount
    rw [List.countP_append]
    have ha := huA r
    have hb := huB r
    unfold reasonEntryCount at ha hb
    have hkey : ¬(0 < A.mergeBases.countP (fun e => e.reasons.contains r) ∧
        0 < B.mergeBases.countP (fun e => e.reasons.contains r)) := by
      rintro ⟨hpa, hpb⟩
      obtain ⟨mA, hmA, hcA⟩ := List.countP_pos_iff.mp hpa
      obtain ⟨mB, hmB, hcB⟩ := List.countP_pos_iff.mp hpb
      exact hd mA hmA r ((contains_true_iff _ _).mp hcA) mB hmB r
        ((contains_true_iff _ _).mp hcB) rfl
    omega
  · intro A B
    constructor
    · intro m hm
      rw [MergeBackupBases_mergeBases]
      exact List.mem_append_left _ hm
    · intro m hm hnotA r hr
      rw [MergeBackupBases_mergeBases] at hm
      rcases List.mem_append.mp hm with h | h
      · exact absurd h hnotA
      · unfold adoptMergeEntries at h
        have h' := List.mem_of_mem_filter h
        rw [List.mem_map] at h'
        obtain ⟨m0, hm0, hme⟩ := h'
        intro hcont
        rw [← hme] at hr
        have hrr : r ∈ m0.reasons.filter
            (fun r => !((coveredKeys k A.mergeBases).contains (k r))) := hr
        have hp := (List.mem_filter.mp hrr).2
        rw [hcont] at hp
        simp at hp

lemma singleton_reason_count (m : ManifestEntry) (r : Reason) :
    reasonEntryCount [m] r ≤ 1 := by
  unfold reasonEntryCount
  exact le_trans (List.countP_le_length _) (by simp)

/-- Witness data for C5: A has one complete email merge base and one
incomplete email assist; B has a disjoint contacts merge base. -/
def c5k : Reason → String := fun r => r.service ++ r.category

def c5re : Reason := ⟨"ro", "exchange", "email"⟩

def c5rc : Reason := ⟨"ro", "exchange", "contacts"⟩

def c5mA : ManifestEntry := ⟨⟨"id0", "", 0⟩, [c5re]⟩

def c5mInc : ManifestEntry := ⟨⟨"id1", "checkpoint", 0⟩, [c5re]⟩

def c5A : backupBases :=
  ⟨[⟨⟨"bid0", "id0", "ss0", "", 0⟩, [c5re]⟩], [c5mA], [c5mA, c5mInc]⟩

def c5mB : ManifestEntry := ⟨⟨"id2", "", 0⟩, [c5rc]⟩

def c5B : backupBases :=
  ⟨[⟨⟨"bid2", "id2", "ss2", "", 0⟩, [c5rc]⟩], [c5mB], [c5mB]⟩

/-- Witness for C5: idempotence on `c5A` and disjoint union with `c5B`. -/
theorem merge_backup_bases_spec_witness :
    ((MergeBackupBases c5k c5A c5A).backups = c5A.backups ∧
     (MergeBackupBases c5k c5A c5A).mergeBases = c5A.mergeBases ∧
     (∀ x, x ∈ (MergeBackupBases c5k c5A c5A).assistBases ↔ x ∈ c5A.assistBases)) ∧
    ((MergeBackupBases c5k c5A c5B).mergeBases = c5A.mergeBases ++ c5B.mergeBases ∧
     (∀ r, reasonEntryCount (MergeBackupBases c5k c5A c5B).mergeBases r ≤ 1)) :=
  ⟨(merge_backup_bases_spec c5k).1 c5A (by decide) (by decide) (by decide) (by decide),
   ((merge_backup_bases_spec c5k).2.1 c5A c5B (by decide) (by decide)).1,
   ((merge_backup_bases_spec c5k).2.1 c5A c5B (by decide) (by decide)).2
     (fun r => singleton_reason_count c5mA r) (fun r => singleton_reason_count c5mB r)⟩

end Corso

namespace Corso

/-! ## Operation orchestrator (restore)

Modelled from the spec: internal/operations/restore.go is not among the
provided sources; only its tests are (TestRestoreOperation_PersistResults,
TestRestore_Run_ErrorNoResults).  Times are abstract naturals; the data
pipeline is summarized by the stats it would accumulate. -/

inductive OpStatus where
  | noStatus
  | inProgress
  | completed
  | failed
  | noData
deriving DecidableEq, Repr

/-- The stats accumulated during a restore: matched resource owners, bytes
and items read (the count of restore collections), items written (connector
successes) and the unrecoverable read/write error flags. -/
structure RestoreStats where
  resourceCount : Nat
  bytesRead : Nat
  itemsRead : Nat
  itemsWritten : Nat
  readErr : Bool
  writeErr : Bool
deriving DecidableEq, Repr

structure OpResults where
  itemsRead : Nat
  itemsWritten : Nat
  bytesRead : Nat
  resourceOwners : Nat
  readErr : Bool
  writeErr : Bool
  startedAt : Nat
  completedAt : Nat
deriving DecidableEq, Repr

/-- Modelled from the spec: persistResults maps the collected stats into the
Result record and derives the terminal Status — Failed (an error is returned,
the Bool component) on an unrecoverable read or write error, NoData when no
items matched and there was no error, Completed otherwise.  StartedAt,
CompletedAt and ResourceOwners are set in every case. -/
def persistResults (started finished : Nat) (stats : RestoreStats) :
    OpStatus × OpResults × Bool :=
  (if stats.readErr || stats.writeErr then OpStatus.failed
   else if stats.itemsRead == 0 then OpStatus.noData
   else OpStatus.completed,
   { itemsRead := stats.itemsRead, itemsWritten := stats.itemsWritten,
     bytesRead := stats.bytesRead, resourceOwners := stats.resourceCount,
     readErr := stats.readErr, writeErr := stats.writeErr,
     startedAt := started, completedAt := finished },
   stats.readErr || stats.writeErr)

/-- C6: persistResults derives Completed exactly when no unrecoverable error
occurred and at least one item was processed, NoData when there is no error
and zero items matched, and Failed with an error returned when an
unrecoverable read (or write) error occurred; StartedAt, CompletedAt and
ResourceOwners are set in the Result in every case. -/
theorem persist_results_status (started finished : Nat) (stats : RestoreStats) :
    (stats.readErr = false → stats.writeErr = false → 0 < stats.itemsRead →
      (persistResults started finished stats).1 = OpStatus.completed ∧
      (persistResults started finished stats).2.2 = false) ∧
    (stats.readErr = false → stats.writeErr = false → stats.itemsRead = 0 →
      (persistResults started finished stats).1 = OpStatus.noData ∧
      (persistResults started finished stats).2.2 = false) ∧
    (stats.readErr = true →
      (persistResults started finished stats).1 = OpStatus.failed ∧
      (persistResults started finished stats).2.2 = true) ∧
    (stats.writeErr = true →
      (persistResults started finished stats).1 = OpStatus.failed ∧
      (persistResults started finished stats).2.2 = true) ∧
    (persistResults started finished stats).2.1.startedAt = started ∧
    (persistResults started finished stats).2.1.completedAt = finished ∧
    (persistResults started finished stats).2.1.resourceOwners = stats.resourceCount := by
  refine ⟨?_, ?_, ?_, ?_, rfl, rfl, rfl⟩
  · intro hre hwe hn
    have h0 : (stats.itemsRead == 0) = false := by
      rw [beq_eq_false_iff_ne]
      omega
    unfold persistResults
    rw [hre, hwe]
    simp [h0]
  · intro hre hwe hn
    have h0 : (stats.itemsRead == 0) = true := by
      rw [beq_iff_eq]
      exact hn
    unfold persistResults
    rw [hre, hwe]
    simp [h0]
  · intro hre
    unfold persistResults
    rw [hre]
    simp
  · intro hwe
    unfold persistResults
    rw [hwe]
    simp

/-- Witness for C6 at the three stats of TestRestoreOperation_PersistResults. -/
theorem persist_results_status_witness :
    ((persistResults 5 6 ⟨1, 42, 1, 1, false, false⟩).1 = OpStatus.completed ∧
     (persistResults 5 6 ⟨1, 42, 1, 1, false, false⟩).2.2 = false) ∧
    ((persistResults 5 6 ⟨0, 0, 0, 0, false, false⟩).1 = OpStatus.noData ∧
     (persistResults 5 6 ⟨0, 0, 0, 0, false, false⟩).2.2 = false) ∧
    ((persistResults 5 6 ⟨0, 0, 0, 0, true, false⟩).1 = OpStatus.failed ∧
     (persistResults 5 6 ⟨0, 0, 0, 0, true, false⟩).2.2 = true) ∧
    (persistResults 5 6 ⟨1, 42, 1, 1, false, false⟩).2.1.startedAt = 5 ∧
    (persistResults 5 6 ⟨1, 42, 1, 1, false, false⟩).2.1.completedAt = 6 ∧
    (persistResults 5 6 ⟨1, 42, 1, 1, false, false⟩).2.1.resourceOwners = 1 :=
  ⟨(persist_results_status 5 6 ⟨1, 42, 1, 1, false, false⟩).1 rfl rfl (by decide),
   (persist_results_status 5 6 ⟨0, 0, 0, 0, false, false⟩).2.1 rfl rfl rfl,
   (persist_results_status 5 6 ⟨0, 0, 0, 0, true, false⟩).2.2.1 rfl,
   (persist_results_status 5 6 ⟨1, 42, 1, 1, false, false⟩).2.2.2.2.1,
   (persist_results_status 5 6 ⟨1, 42, 1, 1, false, false⟩).2.2.2.2.2.1,
   (persist_results_status 5 6 ⟨1, 42, 1, 1, false, false⟩).2.2.2.2.2.2⟩

structure RunResult where
  startEvents : Nat
  endEvents : Nat
  status : OpStatus
  resourceOwners : Nat
  errored : Bool
deriving DecidableEq, Repr

def zeroStats : RestoreStats := ⟨0, 0, 0, 0, false, false⟩

/-- Modelled from the spec: Run emits a start event unconditionally at run
entry; it resolves the restore scope, and only when at least one resource
owner matched does it drive the data-collection pipeline and emit an end
event.  A run that fails before touching any data source persists a failed
Result with zero counts and emits no end event. -/
def restoreRun (started finished ownersMatched : Nat) (pipeline : RestoreStats) :
    RunResult :=
  if ownersMatched == 0 then
    { startEvents := 1, endEvents := 0,
      status := (persistResults started finished { zeroStats with readErr := true }).1,
      resourceOwners := (persistResults started finished
        { zeroStats with readErr := true }).2.1.resourceOwners,
      errored := true }
  else
    { startEvents := 1, endEvents := 1,
      status := (persistResults started finished pipeline).1,
      resourceOwners := (persistResults started finished pipeline).2.1.resourceOwners,
      errored := (persistResults started finished pipeline).2.2 }

/-- C7: every Run emits exactly one start event; an end event is emitted iff
the run reached the data-collection pipeline (some resource owner matched);
a restore whose selector matches zero resource owners ends not-Completed
(Failed), with zero ResourceOwners, no end event, and an error. -/
theorem run_event_asymmetry (started finished ownersMatched : Nat)
    (pipeline : RestoreStats) :
    (restoreRun started finished ownersMatched pipeline).startEvents = 1 ∧
    ((restoreRun started finished ownersMatched pipeline).endEvents = 1 ↔
      ownersMatched ≠ 0) ∧
    (ownersMatched = 0 →
      (restoreRun started finished ownersMatched pipeline).status ≠ OpStatus.completed ∧
      (restoreRun started finished ownersMatched pipeline).status = OpStatus.failed ∧
      (restoreRun started finished ownersMatched pipeline).resourceOwners = 0 ∧
      (restoreRun started finished ownersMatched pipeline).endEvents = 0 ∧
      (restoreRun started finished ownersMatched pipeline).errored = true) := by
  by_cases h : ownersMatched = 0
  · subst h
    refine ⟨rfl, ?_, ?_⟩
    · show (0 : Nat) = 1 ↔ (0 : Nat) ≠ 0
      simp
    · intro _
      refine ⟨?_, rfl, rfl, rfl, rfl⟩
      intro hc
      cases hc
  · have hb : (ownersMatched == 0) = false := beq_eq_false_iff_ne.mpr h
    have hrun : restoreRun started finished ownersMatched pipeline =
        { startEvents := 1, endEvents := 1,
          status := (persistResults started finished pipeline).1,
          resourceOwners := (persistResults started finished
            pipeline).2.1.resourceOwners,
          errored := (persistResults started finished pipeline).2.2 } := by
      unfold restoreRun
      rw [hb]
      rfl
    rw [hrun]
    exact ⟨rfl, by simp [h], fun h0 => absurd h0 h⟩

/-- Witness for C7: the zero-resource-owner restore. -/
theorem run_event_asymmetry_witness :
    (restoreRun 1 2 0 zeroStats).startEvents = 1 ∧
    ((restoreRun 1 2 0 zeroStats).status ≠ OpStatus.completed ∧
     (restoreRun 1 2 0 zeroStats).status = OpStatus.failed ∧
     (restoreRun 1 2 0 zeroStats).resourceOwners = 0 ∧
     (restoreRun 1 2 0 zeroStats).endEvents = 0 ∧
     (restoreRun 1 2 0 zeroStats).errored = true) :=
  ⟨(run_event_asymmetry 1 2 0 zeroStats).1,
   (run_event_asymmetry 1 2 0 zeroStats).2.2 rfl⟩

end Corso
